import Mathlib

/-!
# ims_api_connector: a shallow embedding and its verified properties

The Go package `ims_api_connector` (file `ims_api_connector.go`) is a small client for an
inventory API.  This development embeds its functions as Lean definitions and proves
properties of them.

Conventions of the embedding.

* A Go `string` is a byte sequence.  The embedding uses Lean `String` (a sequence of Unicode
  scalar values), i.e. it covers the Go strings that are valid UTF-8.  Every comparison the
  source makes is against an ASCII literal, for which byte-wise and character-wise
  operations agree.
* A method with a pointer receiver `self *IMSAPIConnector` becomes a function that takes the
  connector and returns its result paired with the connector after the call.
* A Go result pair `(value, error)` of which exactly one is meaningful becomes
  `Except Error value`.
* A call during which `log.Fatal` may end the process returns an `Outcome`.
* Library functions (`strings`, `net/url`, `net/http`, `encoding/json`, `time`) are modelled
  in namespaces of the same name, from their documented behaviour.  Two things outside the
  program are parameters: the verdict of `url.Parse` on a string (`parseErr`) and the
  server with the wire to it (`Network`).
* JSON text is read by a reader with fuel; `parseValue_fuel` shows that the fuel `parse`
  gives it is enough for every text.
-/

namespace ims_api_connector

/-! ## Package `strings` -/

namespace strings

/-- Go `strings.HasPrefix(s, p)`. -/
def HasPrefix (s p : String) : Bool := p.data.isPrefixOf s.data

/-- Go `strings.HasSuffix(s, suffix)`. -/
def HasSuffix (s suffix : String) : Bool := suffix.data.isSuffixOf s.data

/-- Go `strings.TrimRight(s, cutset)`: `s` without its trailing characters that occur in
`cutset`. -/
def TrimRight (s cutset : String) : String :=
  ⟨s.data.rdropWhile (fun c => cutset.data.contains c)⟩

/-- Go `strings.TrimLeft(s, cutset)`: `s` without its leading characters that occur in
`cutset`. -/
def TrimLeft (s cutset : String) : String :=
  ⟨s.data.dropWhile (fun c => cutset.data.contains c)⟩

/-- Go `strings.Trim(s, cutset)`: leading and trailing characters of `cutset` removed. -/
def Trim (s cutset : String) : String := TrimLeft (TrimRight s cutset) cutset

end strings

/-- The Go `error` values the package can produce or pass on.  Messages of library errors
are not modelled. -/
inductive Error where
  /-- An `errors.New(msg)`. -/
  | errorString (msg : String)
  /-- The error of `url.Parse`. -/
  | urlParse
  /-- The error of `http.NewRequest` on a method that is not a token. -/
  | httpMethod
  /-- An error of `client.Do` or of reading the response body. -/
  | transport (msg : String)
  /-- A `*json.SyntaxError`: the input is not JSON text. -/
  | jsonSyntax
  /-- Any error of decoding valid JSON into the target (a `*json.UnmarshalTypeError`, or the
  error of an `UnmarshalJSON` method). -/
  | jsonUnmarshal
  deriving DecidableEq, Repr

/-! ## Package `net/url` -/

namespace url

/-- The characters `shouldEscape(c, encodeQueryComponent)` leaves alone: ASCII letters and
digits, and the marks `-`, `_`, `.`, `~`. -/
def isUnreserved (c : Char) : Bool :=
  ('a' ≤ c && c ≤ 'z') || ('A' ≤ c && c ≤ 'Z') || ('0' ≤ c && c ≤ '9') ||
    c == '-' || c == '_' || c == '.' || c == '~'

/-- The digit of value `n` in `upperhex = "0123456789ABCDEF"`. -/
def upperhex (n : Nat) : Char := "0123456789ABCDEF".data.getD n '0'

/-- The escape `%XX` of one byte. -/
def escapeByte (b : UInt8) : List Char := ['%', upperhex (b.toNat / 16), upperhex (b.toNat % 16)]

/-- What `escape(s, encodeQueryComponent)` writes for one character of `s`: the character
itself when unreserved, `+` for a space, and otherwise `%XX` for each byte of its UTF-8
encoding (every byte of a non-ASCII character is escaped by `shouldEscape`). -/
def escapeChar (c : Char) : List Char :=
  if isUnreserved c then [c]
  else if c == ' ' then ['+']
  else (String.utf8EncodeChar c).flatMap escapeByte

/-- Go `url.QueryEscape(s)`. -/
def QueryEscape (s : String) : String := ⟨s.data.flatMap escapeChar⟩

/-- Byte-wise lexicographic order of Go strings, as `sort.Strings` uses it (on UTF-8 text
it is the lexicographic order of the code points). -/
def less (a b : String) : Bool := decide (a.data < b.data)

/-- Go `url.Values`, a `map[string][]string`, as an association list with distinct keys kept
in increasing key order. -/
abbrev Values := List (String × List String)

/-- Go `Values.Set(key, value)`: the key is bound to the one-element list `[value]`. -/
def Values.Set : Values → String → String → Values
  | [], key, value => [(key, [value])]
  | (k, vs) :: rest, key, value =>
    if key = k then (k, [value]) :: rest
    else if less key k then (key, [value]) :: (k, vs) :: rest
    else (k, vs) :: Values.Set rest key value

/-- Go `Values.Encode()`: for the keys in sorted order and each value of a key, `&` when the
buffer is not empty, then the escaped key, `=`, and the escaped value. -/
def Values.Encode (v : Values) : String :=
  v.foldl (fun buf kv =>
    kv.2.foldl (fun buf value =>
      (if buf.length > 0 then buf ++ "&" else buf)
        ++ QueryEscape kv.1 ++ "=" ++ QueryEscape value) buf) ""

end url

/-! ## Package `net/http` -/

namespace http

/-- Go `http.MethodGet`. -/
def MethodGet : String := "GET"

/-- Go `http.MethodPost`. -/
def MethodPost : String := "POST"

/-- Go `http.Header`, a `map[string][]string`, as an association list. -/
abbrev Header := List (String × List String)

/-- The bytes `textproto` accepts in a header key (the token characters). -/
def isTokenChar (c : Char) : Bool :=
  ('a' ≤ c && c ≤ 'z') || ('A' ≤ c && c ≤ 'Z') || ('0' ≤ c && c ≤ '9') ||
    "!#$%&*+-.^_|~".data.contains c || c == Char.ofNat 39 || c == Char.ofNat 96

/-- The loop of `canonicalMIMEHeaderKey`: a letter is upper-cased at the start and after a
hyphen and lower-cased elsewhere. -/
def canonicalLoop : Bool → List Char → List Char
  | _, [] => []
  | upper, c :: cs =>
    let c := if upper && 'a' ≤ c && c ≤ 'z' then Char.ofNat (c.toNat - 32)
      else if !upper && 'A' ≤ c && c ≤ 'Z' then Char.ofNat (c.toNat + 32)
      else c
    c :: canonicalLoop (c == '-') cs

/-- Go `textproto.CanonicalMIMEHeaderKey(s)`: a key with a character that is not a token
character is returned unchanged. -/
def CanonicalMIMEHeaderKey (s : String) : String :=
  if s.data.all isTokenChar then ⟨canonicalLoop true s.data⟩ else s

/-- Append `value` to the values bound to the (canonical) key. -/
def Header.append : Header → String → String → Header
  | [], key, value => [(key, [value])]
  | (k, vs) :: rest, key, value =>
    if key = k then (k, vs ++ [value]) :: rest else (k, vs) :: Header.append rest key value

/-- Go `Header.Add(key, value)`. -/
def Header.Add (h : Header) (key value : String) : Header :=
  Header.append h (CanonicalMIMEHeaderKey key) value

/-- Go `Header.Values(key)`: all values bound to the key, none when the key is not set. -/
def Header.Values (h : Header) (key : String) : List String :=
  match h.find? (fun kv => kv.1 == CanonicalMIMEHeaderKey key) with
  | some kv => kv.2
  | none => []

/-- Go `Header.Get(key)`: the first value bound to the key, `""` when there is none. -/
def Header.Get (h : Header) (key : String) : String := (Header.Values h key).headD ""

/-- The fields of `http.Request` that `NewRequest` and the package set.  `URL` holds the
string that `url.Parse` accepted (the structure of the parsed URL is not modelled), `Body`
the text the body reader yields. -/
structure Request where
  Method : String
  URL : String
  Header : Header
  Body : String
  deriving DecidableEq, Repr

/-- Go `http.NewRequest(method, url, body)`.  `parseErr url` is the error `url.Parse`
reports for `url`, if any: URL syntax is a parameter of the model. -/
def NewRequest (parseErr : String → Option Error) (method url body : String) :
    Except Error Request :=
  let method := if method = "" then "GET" else method
  if !(method.length > 0 && method.data.all isTokenChar) then .error Error.httpMethod
  else
    match parseErr url with
    | some err => .error err
    | none => .ok { Method := method, URL := url, Header := [], Body := body }

end http

/-! ## Package `time` -/

namespace time

/-- A `time.Time` as the civil date and clock reading it was parsed from, with the zone
offset in seconds east of UTC. -/
structure Time where
  year : Nat
  month : Nat
  day : Nat
  hour : Nat
  minute : Nat
  second : Nat
  nanosecond : Nat
  offset : Int
  deriving DecidableEq, Repr

/-- The zero `time.Time`: January 1, year 1, 00:00:00 UTC. -/
def zero : Time := ⟨1, 1, 1, 0, 0, 0, 0, 0⟩

/-- ASCII decimal digit. -/
def isDigit (c : Char) : Bool := '0' ≤ c && c ≤ '9'

/-- Go `isLeap(year)`. -/
def isLeap (year : Nat) : Bool := year % 4 == 0 && (year % 100 != 0 || year % 400 == 0)

/-- Go `daysIn(month, year)`. -/
def daysIn (month year : Nat) : Nat :=
  if month == 2 then (if isLeap year then 29 else 28)
  else if month == 4 || month == 6 || month == 9 || month == 11 then 30
  else 31

/-- The helper `parseUint` of `parseRFC3339`: an unsigned decimal number within
`[min, max]`. -/
def parseUint (s : List Char) (min max : Nat) : Option Nat :=
  if s.all isDigit then
    let x := s.foldl (fun x c => x * 10 + (c.toNat - 48)) 0
    if min ≤ x && x ≤ max then some x else none
  else none

/-- The slice `s[i:j]`. -/
def slice (s : List Char) (i j : Nat) : List Char := (s.drop i).take (j - i)

/-- The nanoseconds denoted by the digits of a fractional second: the first nine digits,
scaled. -/
def nanoseconds (ds : List Char) : Nat :=
  let ds := ds.take 9
  ds.foldl (fun x c => x * 10 + (c.toNat - 48)) 0 * 10 ^ (9 - ds.length)

/-- The RFC 3339 grammar `YYYY-MM-DDTHH:MM:SS[.fraction](Z|+HH:MM|-HH:MM)` with range-checked
fields, after Go's `parseRFC3339`.  Go's layout-driven `Parse` also tolerates a few spellings
outside this grammar; those are rejected here. -/
def parseRFC3339 (s : String) : Option Time :=
  let b := s.data
  if b.length < 19 then none
  else do
    let year ← parseUint (slice b 0 4) 0 9999
    let month ← parseUint (slice b 5 7) 1 12
    let day ← parseUint (slice b 8 10) 1 (daysIn month year)
    let hour ← parseUint (slice b 11 13) 0 23
    let min ← parseUint (slice b 14 16) 0 59
    let sec ← parseUint (slice b 17 19) 0 59
    if !(slice b 4 5 == ['-'] && slice b 7 8 == ['-'] && slice b 10 11 == ['T']
        && slice b 13 14 == [':'] && slice b 16 17 == [':']) then none
    else
      let rest := b.drop 19
      let (nsec, rest) :=
        match rest with
        | '.' :: d :: r =>
          if isDigit d then ((nanoseconds ((d :: r).takeWhile isDigit)), (d :: r).dropWhile isDigit)
          else (0, rest)
        | _ => (0, rest)
      if rest == ['Z'] then some ⟨year, month, day, hour, min, sec, nsec, 0⟩
      else if rest.length != 6 then none
      else do
        let hr ← parseUint (slice rest 1 3) 0 23
        let mm ← parseUint (slice rest 4 6) 0 59
        if slice rest 3 4 != [':'] then none
        else if slice rest 0 1 == ['+'] then
          some ⟨year, month, day, hour, min, sec, nsec, ((hr * 60 + mm) * 60 : Nat)⟩
        else if slice rest 0 1 == ['-'] then
          some ⟨year, month, day, hour, min, sec, nsec, -((hr * 60 + mm) * 60 : Nat)⟩
        else none

end time

/-! ## Package `encoding/json`: JSON text -/

namespace json

/-- A JSON value as the decoder reads it.  A number keeps its literal, a string its text
between the quotes (`raw`) next to the string it denotes. -/
inductive Value where
  | null
  | bool (b : Bool)
  | number (lit : String)
  | string (raw : String) (s : String)
  | array (elems : List Value)
  | object (members : List (String × Value))

/-- JSON white space. -/
def isSpace (c : Char) : Bool := c == ' ' || c == '\t' || c == '\r' || c == '\n'

/-- The text without its leading white space. -/
def skipSpace : List Char → List Char
  | [] => []
  | c :: cs => if isSpace c then skipSpace cs else c :: cs

/-- The value of a hexadecimal digit. -/
def hexVal (c : Char) : Option Nat :=
  if '0' ≤ c && c ≤ '9' then some (c.toNat - 48)
  else if 'a' ≤ c && c ≤ 'f' then some (c.toNat - 87)
  else if 'A' ≤ c && c ≤ 'F' then some (c.toNat - 55)
  else none

/-- Go `getu4`: the number written by four hexadecimal digits. -/
def getu4 (a b c d : Char) : Option Nat := do
  let a ← hexVal a
  let b ← hexVal b
  let c ← hexVal c
  let d ← hexVal d
  pure (((a * 16 + b) * 16 + c) * 16 + d)

/-- The character Go writes for an invalid surrogate, `unicode.ReplacementChar`. -/
def replacementChar : Char := Char.ofNat 0xFFFD

/-- The character a one-letter escape denotes. -/
def unescape (e : Char) : Option Char :=
  if e == '"' then some '"'
  else if e == '\\' then some '\\'
  else if e == '/' then some '/'
  else if e == 'b' then some (Char.ofNat 8)
  else if e == 'f' then some (Char.ofNat 12)
  else if e == 'n' then some '\n'
  else if e == 'r' then some '\r'
  else if e == 't' then some '\t'
  else none

/-- The output with the replacement character for a high surrogate that found no partner. -/
def flush (pending : Option Nat) (acc : List Char) : List Char :=
  match pending with
  | some _ => replacementChar :: acc
  | none => acc

/-- Read a string literal from the text after its opening quote: the raw text, the string
it denotes, and the text after the closing quote.  `pending` is a high surrogate read by the
last escape; a surrogate pair denotes one character and a surrogate without partner the
replacement character, as in Go's `unquote`.  `raw` and `acc` are accumulated in reverse. -/
def scanString : List Char → Option Nat → List Char → List Char →
    Option (String × String × List Char)
  | [], _, _, _ => none
  | '"' :: cs, pending, raw, acc => some (⟨raw.reverse⟩, ⟨(flush pending acc).reverse⟩, cs)
  | '\\' :: 'u' :: a :: b :: c :: d :: cs, pending, raw, acc =>
    match getu4 a b c d with
    | none => none
    | some r =>
      let raw := d :: c :: b :: a :: 'u' :: '\\' :: raw
      if 0xD800 ≤ r && r < 0xDC00 then scanString cs (some r) raw (flush pending acc)
      else if 0xDC00 ≤ r && r < 0xE000 then
        match pending with
        | some h =>
          scanString cs none raw (Char.ofNat ((h - 0xD800) * 0x400 + (r - 0xDC00) + 0x10000) :: acc)
        | none => scanString cs none raw (replacementChar :: acc)
      else scanString cs none raw (Char.ofNat r :: flush pending acc)
  | '\\' :: e :: cs, pending, raw, acc =>
    match unescape e with
    | none => none
    | some ch => scanString cs none (e :: '\\' :: raw) (ch :: flush pending acc)
  | c :: cs, pending, raw, acc =>
    if c.toNat < 0x20 then none else scanString cs none (c :: raw) (c :: flush pending acc)

/-- ASCII decimal digit. -/
def isDigit (c : Char) : Bool := '0' ≤ c && c ≤ '9'

/-- The sign an exponent may start with, and the text after it. -/
def scanSign (cs : List Char) : List Char × List Char :=
  match cs with
  | '+' :: r => (['+'], r)
  | '-' :: r => (['-'], r)
  | _ => ([], cs)

/-- Read the exponent of a number, if there is one. -/
def scanExp (acc cs : List Char) : Option (String × List Char) :=
  match cs with
  | e :: r =>
    if e == 'e' || e == 'E' then
      if ((scanSign r).2.takeWhile isDigit).isEmpty then none
      else
        some (⟨acc ++ e :: (scanSign r).1 ++ (scanSign r).2.takeWhile isDigit⟩,
          (scanSign r).2.dropWhile isDigit)
    else some (⟨acc⟩, cs)
  | [] => some (⟨acc⟩, [])

/-- Read the fraction of a number, if there is one, and then the exponent. -/
def scanFrac (acc cs : List Char) : Option (String × List Char) :=
  match cs with
  | '.' :: r =>
    if (r.takeWhile isDigit).isEmpty then none
    else scanExp (acc ++ '.' :: r.takeWhile isDigit) (r.dropWhile isDigit)
  | _ => scanExp acc cs

/-- Read the integer part of a number after its sign, and then the rest of the number. -/
def scanInt (sign cs : List Char) : Option (String × List Char) :=
  match cs with
  | [] => none
  | c :: r =>
    if c == '0' then scanFrac (sign ++ ['0']) r
    else if '1' ≤ c && c ≤ '9' then
      scanFrac (sign ++ c :: r.takeWhile isDigit) (r.dropWhile isDigit)
    else none

/-- Read a number literal: `-? (0 | [1-9][0-9]*) (. [0-9]+)? ([eE] [+-]? [0-9]+)?`. -/
def scanNumber (cs : List Char) : Option (String × List Char) :=
  match cs with
  | '-' :: r => scanInt ['-'] r
  | _ => scanInt [] cs

/-- A reader of the front of a text: what was read and the text after it. -/
abbrev Reader (α : Type) := List Char → Option (α × List Char)

/-- Read a literal name, a string or a number from a text without leading white space. -/
def scalar : Reader Value := fun cs =>
  match cs with
  | 'n' :: 'u' :: 'l' :: 'l' :: r => some (Value.null, r)
  | 't' :: 'r' :: 'u' :: 'e' :: r => some (Value.bool true, r)
  | 'f' :: 'a' :: 'l' :: 's' :: 'e' :: r => some (Value.bool false, r)
  | '"' :: r =>
    match scanString r none [] [] with
    | some (raw, s, r') => some (Value.string raw s, r')
    | none => none
  | cs' =>
    match scanNumber cs' with
    | some (lit, r) => some (Value.number lit, r)
    | none => none

/-- Read an array from the text after its opening bracket and the white space there. -/
def arrayBody (elements : Reader (List Value)) : Reader Value := fun cs =>
  match cs with
  | ']' :: r => some (Value.array [], r)
  | r =>
    match elements r with
    | some (xs, r') => some (Value.array xs, r')
    | none => none

/-- Read an object from the text after its opening brace and the white space there. -/
def objectBody (members : Reader (List (String × Value))) : Reader Value := fun cs =>
  match cs with
  | '}' :: r => some (Value.object [], r)
  | r =>
    match members r with
    | some (ms, r') => some (Value.object ms, r')
    | none => none

/-- Read one JSON value, given readers for the elements of an array and for the members of
an object. -/
def valueStep (elements : Reader (List Value)) (members : Reader (List (String × Value))) :
    Reader Value := fun cs =>
  match skipSpace cs with
  | '[' :: r => arrayBody elements (skipSpace r)
  | '{' :: r => objectBody members (skipSpace r)
  | cs' => scalar cs'

/-- Read the elements of a non-empty array and its closing bracket, given readers for one
value and for the elements after a comma. -/
def elementsStep (value : Reader Value) (elements : Reader (List Value)) :
    Reader (List Value) := fun cs =>
  match value cs with
  | none => none
  | some (v, r) =>
    match skipSpace r with
    | ',' :: r' =>
      match elements r' with
      | some (vs, r'') => some (v :: vs, r'')
      | none => none
    | ']' :: r' => some ([v], r')
    | _ => none

/-- Read the members of a non-empty object and its closing brace, given readers for one
value and for the members after a comma. -/
def membersStep (value : Reader Value) (members : Reader (List (String × Value))) :
    Reader (List (String × Value)) := fun cs =>
  match skipSpace cs with
  | '"' :: r =>
    match scanString r none [] [] with
    | none => none
    | some (_, key, r) =>
      match skipSpace r with
      | ':' :: r =>
        match value r with
        | none => none
        | some (v, r) =>
          match skipSpace r with
          | ',' :: r' =>
            match members r' with
            | some (ms, r'') => some ((key, v) :: ms, r'')
            | none => none
          | '}' :: r' => some ([(key, v)], r')
          | _ => none
      | _ => none
  | _ => none

mutual
/-- Read one JSON value; `fuel` bounds the number of nested calls. -/
def parseValue : Nat → Reader Value
  | 0 => fun _ => none
  | fuel + 1 => valueStep (parseElements fuel) (parseMembers fuel)
/-- Read the elements of a non-empty array and its closing bracket. -/
def parseElements : Nat → Reader (List Value)
  | 0 => fun _ => none
  | fuel + 1 => elementsStep (parseValue fuel) (parseElements fuel)
/-- Read the members of a non-empty object and its closing brace. -/
def parseMembers : Nat → Reader (List (String × Value))
  | 0 => fun _ => none
  | fuel + 1 => membersStep (parseValue fuel) (parseMembers fuel)
end

/-- The JSON value a text is, when the text is valid JSON (one value, white space around
it).  The fuel `2 * length + 2` is enough for every text (`parseValue_fuel` below).  Go's
limit on the nesting depth and its handling of invalid UTF-8 are not modelled. -/
def parse (data : String) : Option Value :=
  match parseValue (2 * data.length + 2) data.data with
  | some (v, r) => if (skipSpace r).isEmpty then some v else none
  | none => none

end json

/-! ## The package's types -/

/-- The part of `http.Client` the package sets: `Timeout`, a `time.Duration` (an `int64`
count of nanoseconds). -/
structure Client where
  Timeout : Int
  deriving DecidableEq, Repr

/-- Two's-complement wrap of an integer into `int64`. -/
def wrapInt64 (x : Int) : Int := (x + 2 ^ 63) % 2 ^ 64 - 2 ^ 63

/-- Go `time.Second * time.Duration(timeout)` in `int64` arithmetic. -/
def secondsDuration (timeout : Int) : Int := wrapInt64 (1000000000 * wrapInt64 timeout)

/-- Go `type IMSAPIConnector struct`.  The field `JSONDecoder json.Decoder` is never read
or written by the package and is not represented. -/
structure IMSAPIConnector where
  Username : String
  Password : String
  BaseURL : String
  Key : String
  Authenticated : Bool
  client : Client
  deriving DecidableEq, Repr

/-- Go `type authenticationResponse struct`.  A nil slice and an empty slice are both the
empty list. -/
structure authenticationResponse where
  Key : String
  NonFieldErrors : List String
  deriving DecidableEq, Repr

/-- Go `type Asset struct`.  `int` is the 64-bit integer type.  `JSONData`, an
`interface{}`, holds the JSON value it was decoded from, `json.Value.null` standing for
`nil`; a nil slice and an empty slice are both the empty list. -/
structure Asset where
  ID : Int
  Name : String
  IsDeleted : Bool
  LastUpdated : time.Time
  Note : String
  JSONData : json.Value
  TypeID : Int
  PrimaryIPDeviceID : Int
  SiteID : Int
  Tags : List Int

/-- The zero value of `authenticationResponse`. -/
def authenticationResponse.zero : authenticationResponse := ⟨"", []⟩

/-- The zero value of `Asset`. -/
def Asset.zero : Asset := ⟨0, "", false, time.zero, "", json.Value.null, 0, 0, 0, []⟩

/-! ## Package `encoding/json`: decoding into the package's types -/

namespace json

/-- A struct field as the decoder sees it: its Go name and the name part of its
`json:"..."` tag, both as written in the struct declaration. -/
structure Field where
  goName : String
  tag : String
  deriving DecidableEq, Repr

/-- The key under which a field is decoded: the tag's name, and the Go name of the field
when the tag's name is empty. -/
def Field.name (f : Field) : String := if f.tag = "" then f.goName else f.tag

/-- The fields of `authenticationResponse`, from its declaration. -/
def authenticationResponseFields : List Field :=
  [⟨"Key", "key"⟩, ⟨"NonFieldErrors", "non_field_errors"⟩]

/-- The fields of `Asset`, from its declaration. -/
def assetFields : List Field :=
  [⟨"ID", "id"⟩, ⟨"Name", "name"⟩, ⟨"IsDeleted", ""⟩, ⟨"LastUpdated", "last_updated"⟩,
   ⟨"Note", "note"⟩, ⟨"JSONData", ""⟩, ⟨"TypeID", "type_id"⟩,
   ⟨"PrimaryIPDeviceID", "primary_ip_device_id"⟩, ⟨"SiteID", "site_id"⟩, ⟨"Tags", "tags"⟩]

/-- Case folding of one character, as far as it can reach an ASCII character: ASCII letters
to lower case, the Kelvin sign to `k` and the long s to `s`. -/
def foldChar (c : Char) : Char :=
  if 'A' ≤ c && c ≤ 'Z' then Char.ofNat (c.toNat + 32)
  else if c == Char.ofNat 0x212A then 'k'
  else if c == Char.ofNat 0x17F then 's'
  else c

/-- Case folding of an object key.  For the ASCII field names of this package, two names
are equal under Go's Unicode simple folding exactly when their `foldName` is equal. -/
def foldName (s : String) : String := ⟨s.data.map foldChar⟩

/-- The field an object key is decoded into: the one whose name is the key, and else the
first one whose name is the key up to case; none when there is no such field. -/
def findField (fields : List Field) (key : String) : Option Field :=
  match fields.find? (fun f => f.name == key) with
  | some f => some f
  | none => fields.find? (fun f => foldName f.name == foldName key)

/-- The `int64` a number literal denotes, as `strconv.ParseInt(lit, 10, 64)` reads it: an
optional minus sign and decimal digits, within range. -/
def parseInt64 (lit : String) : Option Int :=
  let (neg, ds) :=
    match lit.data with
    | '-' :: r => (true, r)
    | r => (false, r)
  if ds.isEmpty || !ds.all isDigit then none
  else
    let n : Nat := ds.foldl (fun x c => x * 10 + (c.toNat - 48)) 0
    let v : Int := if neg then -(n : Int) else (n : Int)
    if -(2 : Int) ^ 63 ≤ v && v < (2 : Int) ^ 63 then some v else none

/-- Decode into an `int`: a number that is an `int64`; `null` leaves the target as it is. -/
def decodeInt (v : Value) (old : Int) : Except Error Int :=
  match v with
  | Value.null => .ok old
  | Value.number lit =>
    match parseInt64 lit with
    | some n => .ok n
    | none => .error Error.jsonUnmarshal
  | _ => .error Error.jsonUnmarshal

/-- Decode into a `string`: a JSON string; `null` leaves the target as it is. -/
def decodeString (v : Value) (old : String) : Except Error String :=
  match v with
  | Value.null => .ok old
  | Value.string _ s => .ok s
  | _ => .error Error.jsonUnmarshal

/-- Decode into a `bool`: `true` or `false`; `null` leaves the target as it is. -/
def decodeBool (v : Value) (old : Bool) : Except Error Bool :=
  match v with
  | Value.null => .ok old
  | Value.bool b => .ok b
  | _ => .error Error.jsonUnmarshal

/-- Decode into a `time.Time` through `Time.UnmarshalJSON`, which reads the raw text of a
JSON string as an RFC 3339 time and ignores `null`. -/
def decodeTime (v : Value) (old : time.Time) : Except Error time.Time :=
  match v with
  | Value.null => .ok old
  | Value.string raw _ =>
    match time.parseRFC3339 raw with
    | some t => .ok t
    | none => .error Error.jsonUnmarshal
  | _ => .error Error.jsonUnmarshal

/-- Decode into an `interface{}`: any value, `null` giving `nil`. -/
def decodeInterface (v : Value) : Except Error Value := .ok v

/-- Decode into a `[]int`: an array, element by element into fresh elements; `null` gives
the nil slice. -/
def decodeIntSlice (v : Value) : Except Error (List Int) :=
  match v with
  | Value.null => .ok []
  | Value.array xs => xs.mapM (fun x => decodeInt x 0)
  | _ => .error Error.jsonUnmarshal

/-- Decode into a `[]string`: an array, element by element into fresh elements; `null`
gives the nil slice. -/
def decodeStringSlice (v : Value) : Except Error (List String) :=
  match v with
  | Value.null => .ok []
  | Value.array xs => xs.mapM (fun x => decodeString x "")
  | _ => .error Error.jsonUnmarshal

/-- Decode a value into the field of an `authenticationResponse` with the given Go name. -/
def setAuthenticationResponseField (a : authenticationResponse) (goName : String) (v : Value) :
    Except Error authenticationResponse :=
  if goName = "Key" then (decodeString v a.Key).map (fun x => { a with Key := x })
  else if goName = "NonFieldErrors" then
    (decodeStringSlice v).map (fun x => { a with NonFieldErrors := x })
  else .ok a

/-- Decode a value into the field of an `Asset` with the given Go name. -/
def setAssetField (a : Asset) (goName : String) (v : Value) : Except Error Asset :=
  if goName = "ID" then (decodeInt v a.ID).map (fun x => { a with ID := x })
  else if goName = "Name" then (decodeString v a.Name).map (fun x => { a with Name := x })
  else if goName = "IsDeleted" then
    (decodeBool v a.IsDeleted).map (fun x => { a with IsDeleted := x })
  else if goName = "LastUpdated" then
    (decodeTime v a.LastUpdated).map (fun x => { a with LastUpdated := x })
  else if goName = "Note" then (decodeString v a.Note).map (fun x => { a with Note := x })
  else if goName = "JSONData" then
    (decodeInterface v).map (fun x => { a with JSONData := x })
  else if goName = "TypeID" then (decodeInt v a.TypeID).map (fun x => { a with TypeID := x })
  else if goName = "PrimaryIPDeviceID" then
    (decodeInt v a.PrimaryIPDeviceID).map (fun x => { a with PrimaryIPDeviceID := x })
  else if goName = "SiteID" then (decodeInt v a.SiteID).map (fun x => { a with SiteID := x })
  else if goName = "Tags" then (decodeIntSlice v).map (fun x => { a with Tags := x })
  else .ok a

/-- Decode one object member into an `authenticationResponse`: a key that matches no field
is skipped. -/
def authenticationResponseMember (a : authenticationResponse) (m : String × Value) :
    Except Error authenticationResponse :=
  match findField authenticationResponseFields m.1 with
  | some f => setAuthenticationResponseField a f.goName m.2
  | none => .ok a

/-- Decode one object member into an `Asset`: a key that matches no field is skipped. -/
def assetMember (a : Asset) (m : String × Value) : Except Error Asset :=
  match findField assetFields m.1 with
  | some f => setAssetField a f.goName m.2
  | none => .ok a

/-- Decode into an `authenticationResponse`: the members of an object in their order;
`null` leaves the target as it is. -/
def decodeAuthenticationResponse (v : Value) (old : authenticationResponse) :
    Except Error authenticationResponse :=
  match v with
  | Value.null => .ok old
  | Value.object ms => ms.foldlM authenticationResponseMember old
  | _ => .error Error.jsonUnmarshal

/-- Decode into an `Asset`: the members of an object in their order; `null` leaves the
target as it is. -/
def decodeAsset (v : Value) (old : Asset) : Except Error Asset :=
  match v with
  | Value.null => .ok old
  | Value.object ms => ms.foldlM assetMember old
  | _ => .error Error.jsonUnmarshal

/-- Decode into a `[]Asset`: an array, element by element into fresh elements; `null`
gives the nil slice. -/
def decodeAssets (v : Value) : Except Error (List Asset) :=
  match v with
  | Value.null => .ok []
  | Value.array xs => xs.mapM (fun x => decodeAsset x Asset.zero)
  | _ => .error Error.jsonUnmarshal

/-- Go `json.Unmarshal(body, &authentication)` for a zero `authenticationResponse`.  The
text is checked to be JSON first; of the decoding errors only their presence is modelled. -/
def UnmarshalAuthenticationResponse (body : String) : Except Error authenticationResponse :=
  match parse body with
  | none => .error Error.jsonSyntax
  | some v => decodeAuthenticationResponse v authenticationResponse.zero

/-- Go `json.Unmarshal(body, &assets)` for a nil `[]Asset`. -/
def UnmarshalAssets (body : String) : Except Error (List Asset) :=
  match parse body with
  | none => .error Error.jsonSyntax
  | some v => decodeAssets v

end json

/-! ## The connector -/

/-- The server and the wire: the body and error that sending a request yields, given the
requests sent before, and the requests sent so far. -/
structure Network where
  respond : List http.Request → http.Request → String × Option Error
  sent : List http.Request

/-- The result of a call during which `log.Fatal` may end the process. -/
inductive Outcome (α : Type) where
  | returns (a : α)
  | fatal (e : Error)

/-- Go `func (self *IMSAPIConnector) buildResource(resource string) string`. -/
def buildResource (self : IMSAPIConnector) (resource : String) : String × IMSAPIConnector :=
  (self.BaseURL ++ strings.Trim resource "/" ++ "/", self)

/-- Go `func (self *IMSAPIConnector) buildRequest(method, request_url, body string)
(*http.Request, error)`.  `fmt.Sprint` of two strings concatenates them. -/
def buildRequest (parseErr : String → Option Error) (self : IMSAPIConnector)
    (method request_url body : String) : Except Error http.Request × IMSAPIConnector :=
  let validMethod : Bool :=
    if method = http.MethodGet then true
    else if method = http.MethodPost then true
    else false
  if !validMethod then
    (.error (Error.errorString ("method of %v was invalid" ++ method)), self)
  else
    match http.NewRequest parseErr method request_url body with
    | .error err => (.error err, self)
    | .ok req =>
      let req := { req with Header := http.Header.Add req.Header "Cache-Control" "no-cache" }
      let req :=
        if self.Authenticated then
          let req :=
            { req with Header := http.Header.Add req.Header "Content-Type" "application/json" }
          { req with
            Header := http.Header.Add req.Header "Authorization" ("Token " ++ self.Key) }
        else
          { req with
            Header :=
              http.Header.Add req.Header "Content-Type" "application/x-www-form-urlencoded" }
      (.ok req, self)

/-- Go `func (self *IMSAPIConnector) buildUsernameAndPasswordParams() string`. -/
def buildUsernameAndPasswordParams (self : IMSAPIConnector) : String × IMSAPIConnector :=
  let params_values : url.Values := []
  let params_values := url.Values.Set params_values "username" self.Username
  let params_values := url.Values.Set params_values "password" self.Password
  (url.Values.Encode params_values, self)

/-- Go `func (self *IMSAPIConnector) handleAuthenticationResponse(body []byte) bool`. -/
def handleAuthenticationResponse (self : IMSAPIConnector) (body : String) :
    Outcome (Bool × IMSAPIConnector) :=
  match json.UnmarshalAuthenticationResponse body with
  | .error err => Outcome.fatal err
  | .ok authentication =>
    let self :=
      if authentication.Key ≠ "" then
        { self with Key := authentication.Key, Authenticated := true }
      else
        { self with Key := "", Authenticated := false }
    Outcome.returns (self.Authenticated, self)

/-- Go `func (self *IMSAPIConnector) handleGetAssetsResponse(body []byte) ([]Asset, error)`. -/
def handleGetAssetsResponse (self : IMSAPIConnector) (body : String) :
    Except Error (List Asset) × IMSAPIConnector :=
  match json.UnmarshalAssets body with
  | .error err => (.error err, self)
  | .ok assets => (.ok assets, self)

/-- The first statement of `New`: the base URL with `http://` in front unless it starts
with `http://` or `https://`. -/
def withScheme (baseurl : String) : String :=
  if !(strings.HasPrefix baseurl "http://" || strings.HasPrefix baseurl "https://") then
    "http://" ++ baseurl
  else baseurl

/-- The first two statements of `New`: after the first, a base URL that does not end in
`/api/` loses its trailing slashes and gets `/api/` appended. -/
def normalizeBaseURL (baseurl : String) : String :=
  let baseurl := withScheme baseurl
  if !strings.HasSuffix baseurl "/api/" then
    strings.TrimRight baseurl "/" ++ "/api/"
  else baseurl

/-- Go `func New(username, password, baseurl string, timeout int) *IMSAPIConnector`.
Fields the struct literal does not name take their zero value. -/
def New (username password baseurl : String) (timeout : Int) : IMSAPIConnector :=
  { Username := username, Password := password, BaseURL := normalizeBaseURL baseurl,
    Key := "", Authenticated := false, client := { Timeout := secondsDuration timeout } }

/-- Go `func (self *IMSAPIConnector) Post(req *http.Request) ([]byte, error)`: the body and
the error of the round trip; the request is recorded as sent. -/
def Post (self : IMSAPIConnector) (net : Network) (req : http.Request) :
    (String × Option Error) × IMSAPIConnector × Network :=
  (net.respond net.sent req, self, { net with sent := net.sent ++ [req] })

/-- Go `func (self *IMSAPIConnector) Authenticate() (bool, error)`.  The network is returned
next to the outcome: what was sent stays sent when the process ends. -/
def Authenticate (parseErr : String → Option Error) (self : IMSAPIConnector) (net : Network) :
    Outcome (Except Error Bool × IMSAPIConnector) × Network :=
  let (resource, self) := buildResource self "auth/login"
  let (params, self) := buildUsernameAndPasswordParams self
  let (r, self) := buildRequest parseErr self http.MethodPost resource params
  match r with
  | .error err => (Outcome.returns (.error err, self), net)
  | .ok req =>
    let (_, self) := buildUsernameAndPasswordParams self
    let ((body, err), self, net) := Post self net req
    match err with
    | some err => (Outcome.returns (.error err, self), net)
    | none =>
      match handleAuthenticationResponse self body with
      | Outcome.fatal e => (Outcome.fatal e, net)
      | Outcome.returns (b, self) => (Outcome.returns (.ok b, self), net)

/-- Go `func (self *IMSAPIConnector) GetAssets() ([]Asset, error)`. -/
def GetAssets (parseErr : String → Option Error) (self : IMSAPIConnector) (net : Network) :
    Except Error (List Asset) × IMSAPIConnector × Network :=
  let (resource, self) := buildResource self "assets"
  let (r, self) := buildRequest parseErr self http.MethodGet resource ""
  match r with
  | .error err => (.error err, self, net)
  | .ok req =>
    let ((body, err), self, net) := Post self net req
    match err with
    | some err => (.error err, self, net)
    | none =>
      let (r, self) := handleGetAssetsResponse self body
      match r with
      | .error err => (.error err, self, net)
      | .ok assets => (.ok assets, self, net)

/-! ## A sample environment -/

/-- A URL syntax under which every string parses.  The theorems that use it consult it on
`http://h:8000/api/auth/login/` only, which `url.Parse` accepts. -/
def acceptURL : String → Option Error := fun _ => none

/-- A server that answers every request with the login response `{"key": "tok"}`, before
any request was sent. -/
def loginServer : Network :=
  { respond := fun _ _ => ("\x7b\"key\": \"tok\"\x7d", none), sent := [] }

/-- The connector `New "u" "p" "h:8000" 5` after a login that returned the key `tok`. -/
def authenticatedConnector : IMSAPIConnector :=
  { New "u" "p" "h:8000" 5 with Key := "tok", Authenticated := true }

/-! ## Well-formed asset objects

The asset response shape of the interface description: an object with the keys `id`,
`name`, `is_deleted`, `last_updated`, `note`, `json_data`, `type_id`,
`primary_ip_device_id`, `site_id` and `tags`, each with a value of its type. -/

/-- What a well-formed asset object says: an integer, a name, a deletion flag, a time, a
note or `null`, any JSON value, three integers and a list of integers. -/
structure AssetObject where
  id : Int
  name : String
  is_deleted : Bool
  last_updated : time.Time
  note : Option String
  json_data : json.Value
  type_id : Int
  primary_ip_device_id : Int
  site_id : Int
  tags : List Int

/-- The JSON value is the integer `n`: a number whose literal is an optional minus sign and
decimal digits, of value `n`, an `int64`. -/
def IsInt (v : json.Value) (n : Int) : Prop :=
  ∃ lit, v = json.Value.number lit ∧ json.parseInt64 lit = some n

/-- The object member has one of the ten keys and its value says what `o` says. -/
def EncodesMember (o : AssetObject) (m : String × json.Value) : Prop :=
  (m.1 = "id" ∧ IsInt m.2 o.id) ∨
  (m.1 = "name" ∧ ∃ raw, m.2 = json.Value.string raw o.name) ∨
  (m.1 = "is_deleted" ∧ m.2 = json.Value.bool o.is_deleted) ∨
  (m.1 = "last_updated" ∧
    ∃ raw s, m.2 = json.Value.string raw s ∧ time.parseRFC3339 raw = some o.last_updated) ∨
  (m.1 = "note" ∧
    ((m.2 = json.Value.null ∧ o.note = none) ∨
      ∃ raw s, m.2 = json.Value.string raw s ∧ o.note = some s)) ∨
  (m.1 = "json_data" ∧ m.2 = o.json_data) ∨
  (m.1 = "type_id" ∧ IsInt m.2 o.type_id) ∨
  (m.1 = "primary_ip_device_id" ∧ IsInt m.2 o.primary_ip_device_id) ∨
  (m.1 = "site_id" ∧ IsInt m.2 o.site_id) ∨
  (m.1 = "tags" ∧ ∃ vs, m.2 = json.Value.array vs ∧ List.Forall₂ IsInt vs o.tags)

/-- The keys of an asset object. -/
def assetKeys : List String :=
  ["id", "name", "is_deleted", "last_updated", "note", "json_data", "type_id",
   "primary_ip_device_id", "site_id", "tags"]

/-- The JSON value is a well-formed asset object that says `o`: an object in which each of
the ten keys occurs and every member is one of them with a value that says what `o` says. -/
def IsAssetObject (v : json.Value) (o : AssetObject) : Prop :=
  ∃ ms, v = json.Value.object ms ∧ (∀ m ∈ ms, EncodesMember o m) ∧
    ∀ k ∈ assetKeys, k ∈ ms.map Prod.fst

/-- The record agrees with `o` on the fields whose key was seen, and its deletion flag and
payload are still the zero values. -/
def Agrees (o : AssetObject) (seen : List String) (a : Asset) : Prop :=
  ("id" ∈ seen → a.ID = o.id) ∧
  ("name" ∈ seen → a.Name = o.name) ∧
  ("last_updated" ∈ seen → a.LastUpdated = o.last_updated) ∧
  ("type_id" ∈ seen → a.TypeID = o.type_id) ∧
  ("primary_ip_device_id" ∈ seen → a.PrimaryIPDeviceID = o.primary_ip_device_id) ∧
  ("site_id" ∈ seen → a.SiteID = o.site_id) ∧
  ("tags" ∈ seen → a.Tags = o.tags) ∧
  (o.note = none → a.Note = "") ∧
  (∀ s, o.note = some s → "note" ∈ seen → a.Note = s) ∧
  a.IsDeleted = false ∧
  a.JSONData = json.Value.null

/-! ## Sample asset lists -/

/-- The response body of the package's test `Test_handleGetAssetsResponse`. -/
def testAssetsBody : String :=
  "[\x7b\"id\":1,\"name\":\"Asset 1\",\"is_deleted\":false,\"last_updated\":\"1991-02-06T00:00:00.000000+00:00\",\"note\":null,\"json_data\":null,\"type_id\":3,\"primary_ip_device_id\":5,\"site_id\":1,\"tags\":[7]\x7d,"
  ++ "\x7b\"id\":2,\"name\":\"Asset 2\",\"is_deleted\":false,\"last_updated\":\"1991-02-06T00:00:00.000000+00:00\",\"note\":null,\"json_data\":null,\"type_id\":4,\"primary_ip_device_id\":6,\"site_id\":1,\"tags\":[8]\x7d]"

/-- The two JSON objects of `testAssetsBody`. -/
def testAssetsValues : List json.Value :=
  [json.Value.object
     [("id", json.Value.number "1"), ("name", json.Value.string "Asset 1" "Asset 1"),
      ("is_deleted", json.Value.bool false),
      ("last_updated", json.Value.string "1991-02-06T00:00:00.000000+00:00"
        "1991-02-06T00:00:00.000000+00:00"),
      ("note", json.Value.null), ("json_data", json.Value.null),
      ("type_id", json.Value.number "3"), ("primary_ip_device_id", json.Value.number "5"),
      ("site_id", json.Value.number "1"), ("tags", json.Value.array [json.Value.number "7"])],
   json.Value.object
     [("id", json.Value.number "2"), ("name", json.Value.string "Asset 2" "Asset 2"),
      ("is_deleted", json.Value.bool false),
      ("last_updated", json.Value.string "1991-02-06T00:00:00.000000+00:00"
        "1991-02-06T00:00:00.000000+00:00"),
      ("note", json.Value.null), ("json_data", json.Value.null),
      ("type_id", json.Value.number "4"), ("primary_ip_device_id", json.Value.number "6"),
      ("site_id", json.Value.number "1"), ("tags", json.Value.array [json.Value.number "8"])]]

/-- What the two objects of `testAssetsBody` say. -/
def testAssetsObjects : List AssetObject :=
  [{ id := 1, name := "Asset 1", is_deleted := false,
     last_updated := ⟨1991, 2, 6, 0, 0, 0, 0, 0⟩, note := none, json_data := json.Value.null,
     type_id := 3, primary_ip_device_id := 5, site_id := 1, tags := [7] },
   { id := 2, name := "Asset 2", is_deleted := false,
     last_updated := ⟨1991, 2, 6, 0, 0, 0, 0, 0⟩, note := none, json_data := json.Value.null,
     type_id := 4, primary_ip_device_id := 6, site_id := 1, tags := [8] }]

/-- A list response with one asset that is deleted and carries a payload. -/
def deletedAssetBody : String :=
  "[\x7b\"id\":1,\"name\":\"Asset 1\",\"is_deleted\":true,\"last_updated\":\"1991-02-06T00:00:00.000000+00:00\",\"note\":null,\"json_data\":\x7b\"a\":1\x7d,\"type_id\":3,\"primary_ip_device_id\":5,\"site_id\":1,\"tags\":[7]\x7d]"

/-! ## The model on the inputs of the package's tests -/

/-- The package's test `Test_New`: user name, password, base URL and timeout of the
connector built from `192.168.137.253:8000` and 5 seconds. -/
theorem test_New :
    New "some_username" "some_password" "192.168.137.253:8000" 5
      = { Username := "some_username", Password := "some_password",
          BaseURL := "http://192.168.137.253:8000/api/", Key := "", Authenticated := false,
          client := { Timeout := 5000000000 } } := by
  decide

/-- The package's test `Test_prepareResource`. -/
theorem test_prepareResource :
    (buildResource (New "some_username" "some_password" "192.168.137.253:8000" 5)
        "auth/login").1
      = "http://192.168.137.253:8000/api/auth/login/" := by
  decide

/-- The first half of the package's test `Test_buildRequest`: an unauthenticated
connector. -/
theorem test_buildRequest :
    (buildRequest acceptURL (New "some_username" "some_password" "192.168.137.253:8000" 5)
        "GET" "some url" "some body").1
      = .ok { Method := "GET", URL := "some url", Body := "some body",
              Header := [("Cache-Control", ["no-cache"]),
                         ("Content-Type", ["application/x-www-form-urlencoded"])] } :=
  rfl

/-- Escaping of a space, of reserved characters and of a character outside ASCII. -/
theorem test_QueryEscape : url.QueryEscape "a b&c=é~" = "a+b%26c%3D%C3%A9~" := by
  decide

/-- Header keys are brought into their canonical form. -/
theorem test_CanonicalMIMEHeaderKey :
    http.CanonicalMIMEHeaderKey "content-type" = "Content-Type" ∧
    http.CanonicalMIMEHeaderKey "Cache-Control" = "Cache-Control" := by
  decide

/-- The time of the package's test `Test_handleGetAssetsResponse`, and a date that does not
exist. -/
theorem test_parseRFC3339 :
    time.parseRFC3339 "1991-02-06T00:00:00.000000+00:00" = some ⟨1991, 2, 6, 0, 0, 0, 0, 0⟩ ∧
    time.parseRFC3339 "1991-02-30T00:00:00Z" = none := by
  decide

/-- A JSON text with an escape, numbers, literal names and nesting; and texts that are not
JSON. -/
theorem test_parse :
    json.parse "\x7b\"key\": \"abc\\u00e9\", \"x\":[1, -2.5e3, true, null, \x7b\x7d]\x7d"
      = some (.object [("key", .string "abc\\u00e9" "abcé"),
          ("x", .array [.number "1", .number "-2.5e3", .bool true, .null, .object []])]) ∧
    json.parse "[1,]" = none ∧ json.parse "01" = none ∧ json.parse "[1] x" = none ∧
    json.parse "\x7b\"a\" 1\x7d" = none :=
  ⟨rfl, rfl, rfl, rfl, rfl⟩

/-! ## Request building -/

/-- On `GET` and `POST`, `http.NewRequest` fails only when the URL does not parse. -/
theorem NewRequest_valid_method (parseErr : String → Option Error)
    (method request_url body : String) (hMethod : method = "GET" ∨ method = "POST") :
    http.NewRequest parseErr method request_url body =
      match parseErr request_url with
      | some err => .error err
      | none => .ok { Method := method, URL := request_url, Header := [], Body := body } := by
  rcases hMethod with rfl | rfl <;> rfl

/-- The request `buildRequest` returns for a valid method and a URL that parses. -/
theorem buildRequest_ok (parseErr : String → Option Error) (self : IMSAPIConnector)
    (method request_url body : String) (hMethod : method = "GET" ∨ method = "POST")
    (hURL : parseErr request_url = none) :
    buildRequest parseErr self method request_url body =
      (.ok { Method := method, URL := request_url, Body := body,
             Header :=
              if self.Authenticated then
                [("Cache-Control", ["no-cache"]), ("Content-Type", ["application/json"]),
                 ("Authorization", ["Token " ++ self.Key])]
              else
                [("Cache-Control", ["no-cache"]),
                 ("Content-Type", ["application/x-www-form-urlencoded"])] }, self) := by
  have hc1 : http.CanonicalMIMEHeaderKey "Cache-Control" = "Cache-Control" := by decide
  have hc2 : http.CanonicalMIMEHeaderKey "Content-Type" = "Content-Type" := by decide
  have hc3 : http.CanonicalMIMEHeaderKey "Authorization" = "Authorization" := by decide
  have hv : (if method = http.MethodGet then true
      else if method = http.MethodPost then true else false) = true := by
    rcases hMethod with rfl | rfl <;> rfl
  unfold buildRequest
  simp only [hv, NewRequest_valid_method parseErr method request_url body hMethod, hURL]
  cases hA : self.Authenticated <;>
    simp [http.Header.Add, http.Header.append, hc1, hc2, hc3]

/-- A failed URL parse is the only way `buildRequest` fails on a valid method. -/
theorem buildRequest_parse_error (parseErr : String → Option Error) (self : IMSAPIConnector)
    (method request_url body : String) (err : Error)
    (hMethod : method = "GET" ∨ method = "POST")
    (hURL : parseErr request_url = some err) :
    buildRequest parseErr self method request_url body = (.error err, self) := by
  have hv : (if method = http.MethodGet then true
      else if method = http.MethodPost then true else false) = true := by
    rcases hMethod with rfl | rfl <;> rfl
  unfold buildRequest
  simp only [hv, NewRequest_valid_method parseErr method request_url body hMethod, hURL]
  simp

/-- C2: for a method that is `GET` or `POST` and a request that `buildRequest` returns,
the request carries the method, URL and body given, `Cache-Control` is `no-cache`, and:
when `Authenticated` is false, `Content-Type` is `application/x-www-form-urlencoded` and
no `Authorization` header is set; when `Authenticated` is true, `Content-Type` is
`application/json` and `Authorization` is `Token ` followed by the connector's key. -/
theorem buildRequest_headers (parseErr : String → Option Error) (self : IMSAPIConnector)
    (method request_url body : String) (req : http.Request)
    (hMethod : method = "GET" ∨ method = "POST")
    (hOk : (buildRequest parseErr self method request_url body).1 = .ok req) :
    req.Method = method ∧ req.URL = request_url ∧ req.Body = body ∧
    http.Header.Values req.Header "Cache-Control" = ["no-cache"] ∧
    (self.Authenticated = false →
      http.Header.Values req.Header "Content-Type" = ["application/x-www-form-urlencoded"] ∧
      http.Header.Values req.Header "Authorization" = []) ∧
    (self.Authenticated = true →
      http.Header.Values req.Header "Content-Type" = ["application/json"] ∧
      http.Header.Values req.Header "Authorization" = ["Token " ++ self.Key]) := by
  cases hURL : parseErr request_url with
  | some err =>
    rw [buildRequest_parse_error parseErr self method request_url body err hMethod hURL] at hOk
    cases hOk
  | none =>
    rw [buildRequest_ok parseErr self method request_url body hMethod hURL] at hOk
    injection hOk with hOk
    subst hOk
    refine ⟨rfl, rfl, rfl, ?_, ?_, ?_⟩
    · cases self.Authenticated <;> rfl
    · intro hA; rw [hA]; exact ⟨rfl, rfl⟩
    · intro hA; rw [hA]; exact ⟨rfl, rfl⟩

/-- The second half of the package's test `Test_buildRequest`: with `Authenticated` set and
the key `some_key`, the request of `buildRequest` carries `Authorization: Token some_key`. -/
theorem buildRequest_headers_witness :
    http.Header.Values
        (http.Request.mk "GET" "some url"
          [("Cache-Control", ["no-cache"]), ("Content-Type", ["application/json"]),
           ("Authorization", ["Token some_key"])] "some body").Header "Authorization"
      = ["Token " ++ "some_key"] :=
  ((buildRequest_headers (fun _ => none)
      { New "some_username" "some_password" "192.168.137.253:8000" 5 with
        Authenticated := true, Key := "some_key" }
      "GET" "some url" "some body" _ (Or.inl rfl) rfl).2.2.2.2.2 rfl).2

/-! ## The login response -/

/-- C1: for every connector and every body that decodes as a login response,
`handleAuthenticationResponse` returns, leaving `Authenticated = true` and `Key` the decoded
key when that key is non-empty, and `Authenticated = false` and `Key = ""` when it is
empty; the returned boolean is the new `Authenticated`, and afterwards `Authenticated` is
true exactly when `Key` is non-empty.  An absent key decodes like an empty one: the bodies
with the key `abc123`, with an empty key and without key decode to the keys `abc123`, `""`
and `""`. -/
theorem handleAuthenticationResponse_state (self : IMSAPIConnector) (body : String)
    (authentication : authenticationResponse)
    (hDecode : json.UnmarshalAuthenticationResponse body = .ok authentication) :
    ∃ (b : Bool) (self' : IMSAPIConnector),
      handleAuthenticationResponse self body = Outcome.returns (b, self') ∧
      (authentication.Key ≠ "" → self'.Authenticated = true ∧ self'.Key = authentication.Key) ∧
      (authentication.Key = "" → self'.Authenticated = false ∧ self'.Key = "") ∧
      b = self'.Authenticated ∧
      (self'.Authenticated = true ↔ self'.Key ≠ "") ∧
      json.UnmarshalAuthenticationResponse "\x7b\"key\":\"abc123\"\x7d" = .ok ⟨"abc123", []⟩ ∧
      json.UnmarshalAuthenticationResponse "\x7b\"key\":\"\"\x7d" = .ok ⟨"", []⟩ ∧
      json.UnmarshalAuthenticationResponse "\x7b\x7d" = .ok ⟨"", []⟩ := by
  unfold handleAuthenticationResponse
  rw [hDecode]
  by_cases hKey : authentication.Key = ""
  · refine ⟨false, { self with Key := "", Authenticated := false }, ?_, ?_, ?_, rfl, ?_,
      rfl, rfl, rfl⟩
    · simp [hKey]
    · intro h; exact absurd hKey h
    · intro _; exact ⟨rfl, rfl⟩
    · simp
  · refine ⟨true, { self with Key := authentication.Key, Authenticated := true }, ?_, ?_, ?_,
      rfl, ?_, rfl, rfl, rfl⟩
    · simp [hKey]
    · intro _; exact ⟨rfl, rfl⟩
    · intro h; exact absurd h hKey
    · simp [hKey]

/-- The package's test `Test_handleAuthenticationResponse`. -/
theorem handleAuthenticationResponse_state_witness :
    ∃ (b : Bool) (self' : IMSAPIConnector),
      handleAuthenticationResponse (New "some_username" "some_password" "192.168.137.253:8000" 5)
          "\x7b\"key\": \"1c1a552f5b013bd76b7d6acd731a8e46955f4b13\"\x7d"
        = Outcome.returns (b, self') ∧
      ("1c1a552f5b013bd76b7d6acd731a8e46955f4b13" ≠ "" →
        self'.Authenticated = true ∧ self'.Key = "1c1a552f5b013bd76b7d6acd731a8e46955f4b13") ∧
      ("1c1a552f5b013bd76b7d6acd731a8e46955f4b13" = "" →
        self'.Authenticated = false ∧ self'.Key = "") ∧
      b = self'.Authenticated ∧
      (self'.Authenticated = true ↔ self'.Key ≠ "") ∧
      json.UnmarshalAuthenticationResponse "\x7b\"key\":\"abc123\"\x7d" = .ok ⟨"abc123", []⟩ ∧
      json.UnmarshalAuthenticationResponse "\x7b\"key\":\"\"\x7d" = .ok ⟨"", []⟩ ∧
      json.UnmarshalAuthenticationResponse "\x7b\x7d" = .ok ⟨"", []⟩ :=
  handleAuthenticationResponse_state _ _ ⟨"1c1a552f5b013bd76b7d6acd731a8e46955f4b13", []⟩ rfl

/-! ## The login body -/

/-- Escaping leaves a list of unreserved characters as it is. -/
theorem escapeChar_flatMap_unreserved (l : List Char)
    (h : ∀ c ∈ l, url.isUnreserved c = true) : l.flatMap url.escapeChar = l := by
  induction l with
  | nil => rfl
  | cons c cs ih =>
    rw [List.flatMap_cons, ih (fun d hd => h d (List.mem_cons_of_mem _ hd))]
    simp [url.escapeChar, h c (List.mem_cons_self _ _)]

/-- `QueryEscape` is the identity on strings of unreserved characters. -/
theorem QueryEscape_unreserved (s : String) (h : ∀ c ∈ s.data, url.isUnreserved c = true) :
    url.QueryEscape s = s :=
  String.ext (escapeChar_flatMap_unreserved s.data h)

/-- The login body for any credentials. -/
theorem buildUsernameAndPasswordParams_eq (self : IMSAPIConnector) :
    buildUsernameAndPasswordParams self =
      ("password=" ++ url.QueryEscape self.Password ++ "&username="
        ++ url.QueryEscape self.Username, self) := by
  have hs : url.Values.Set (url.Values.Set [] "username" self.Username) "password" self.Password
      = [("password", [self.Password]), ("username", [self.Username])] := rfl
  have hp : url.QueryEscape "password" = "password" := by decide
  have hu : url.QueryEscape "username" = "username" := by decide
  have h0 : ¬ ("".length > 0) := by decide
  have h1 : ("" ++ "password" ++ "=" ++ url.QueryEscape self.Password).length > 0 := by
    simp only [String.length_append]
    have : "password".length = 8 := by decide
    omega
  unfold buildUsernameAndPasswordParams
  simp only [hs, url.Values.Encode, List.foldl, hp, hu, if_neg h0, if_pos h1]
  congr 1
  apply String.ext
  simp [String.data_append]

/-- The unreserved characters are the ASCII letters and digits and the four marks. -/
theorem isUnreserved_iff (c : Char) :
    url.isUnreserved c = true ↔
      (c.isAlphanum = true ∨ c = '-' ∨ c = '_' ∨ c = '.' ∨ c = '~') := by
  simp only [url.isUnreserved, Char.isAlphanum, Char.isAlpha, Char.isUpper, Char.isLower,
    Char.isDigit, Bool.or_eq_true, Bool.and_eq_true, decide_eq_true_eq, beq_iff_eq]
  have h1 : ∀ a b : Char, a ≤ b ↔ a.val ≤ b.val := fun a b => Iff.rfl
  have h2 : ∀ (a : UInt32) (b : UInt32), a ≥ b ↔ b ≤ a := fun a b => Iff.rfl
  simp only [h1, h2]
  tauto

/-- Escaping works character by character. -/
theorem QueryEscape_append (s t : String) :
    url.QueryEscape (s ++ t) = url.QueryEscape s ++ url.QueryEscape t := by
  apply String.ext
  simp [url.QueryEscape, String.data_append, List.flatMap_append]

/-- The escape of one character: itself when unreserved, `+` for the space, and otherwise
`%XX` in upper-case hexadecimal for each byte of its UTF-8 encoding. -/
theorem QueryEscape_singleton (c : Char) :
    url.QueryEscape (String.singleton c) =
      if c.isAlphanum = true ∨ c = '-' ∨ c = '_' ∨ c = '.' ∨ c = '~' then String.singleton c
      else if c = ' ' then "+"
      else ⟨(String.utf8EncodeChar c).flatMap (fun b =>
        ['%', "0123456789ABCDEF".data.getD (b.toNat / 16) '0',
          "0123456789ABCDEF".data.getD (b.toNat % 16) '0'])⟩ := by
  apply String.ext
  have hd : (String.singleton c).data = [c] := rfl
  by_cases hu : url.isUnreserved c = true
  · rw [if_pos ((isUnreserved_iff c).1 hu)]
    simp [url.QueryEscape, hd, url.escapeChar, hu]
  · rw [if_neg (fun h => hu ((isUnreserved_iff c).2 h))]
    by_cases hs : c = ' '
    · subst hs; rfl
    · rw [if_neg hs]
      simp only [url.QueryEscape, hd, url.escapeChar, hu, List.flatMap_cons, List.flatMap_nil,
        List.append_nil]
      have : (c == ' ') = false := by simpa using hs
      simp only [this]
      rfl

/-- C8: the login body is `password=` followed by the escaped password, `&username=` and the
escaped user name, the password first.  Escaping is form percent-encoding: it works
character by character (the escape of a concatenation is the concatenation of the
escapes), a character that is an ASCII letter or digit or one of `-`, `_`, `.`, `~` is kept,
a space becomes `+`, and every other character becomes `%XX` in upper-case hexadecimal for
each byte of its UTF-8 encoding.  So escaping is the identity on strings of unreserved
characters, and for such credentials the body is literally `password=<p>&username=<u>`;
the password `x&username=admin` is sent as `x%26username%3Dadmin`. -/
theorem buildUsernameAndPasswordParams_encoding (self : IMSAPIConnector) :
    (buildUsernameAndPasswordParams self).1 =
      "password=" ++ url.QueryEscape self.Password ++ "&username="
        ++ url.QueryEscape self.Username ∧
    (∀ s : String,
      (∀ c ∈ s.data, c.isAlphanum = true ∨ c = '-' ∨ c = '_' ∨ c = '.' ∨ c = '~') →
      url.QueryEscape s = s) ∧
    ((∀ c ∈ self.Password.data, c.isAlphanum = true ∨ c = '-' ∨ c = '_' ∨ c = '.' ∨ c = '~') →
     (∀ c ∈ self.Username.data, c.isAlphanum = true ∨ c = '-' ∨ c = '_' ∨ c = '.' ∨ c = '~') →
      (buildUsernameAndPasswordParams self).1 =
        "password=" ++ self.Password ++ "&username=" ++ self.Username) ∧
    url.QueryEscape "" = "" ∧
    (∀ s t : String, url.QueryEscape (s ++ t) = url.QueryEscape s ++ url.QueryEscape t) ∧
    (∀ c : Char,
      url.QueryEscape (String.singleton c) =
        if c.isAlphanum = true ∨ c = '-' ∨ c = '_' ∨ c = '.' ∨ c = '~' then String.singleton c
        else if c = ' ' then "+"
        else ⟨(String.utf8EncodeChar c).flatMap (fun b =>
          ['%', "0123456789ABCDEF".data.getD (b.toNat / 16) '0',
            "0123456789ABCDEF".data.getD (b.toNat % 16) '0'])⟩) ∧
    url.QueryEscape "a b&c=d%e/é" = "a+b%26c%3Dd%25e%2F%C3%A9" ∧
    (buildUsernameAndPasswordParams
        { self with Username := "u", Password := "x&username=admin" }).1
      = "password=x%26username%3Dadmin&username=u" := by
  have hid : ∀ s : String,
      (∀ c ∈ s.data, c.isAlphanum = true ∨ c = '-' ∨ c = '_' ∨ c = '.' ∨ c = '~') →
      url.QueryEscape s = s :=
    fun s h => QueryEscape_unreserved s (fun c hc => (isUnreserved_iff c).2 (h c hc))
  refine ⟨by rw [buildUsernameAndPasswordParams_eq], hid, ?_, rfl, QueryEscape_append,
    QueryEscape_singleton, by decide, ?_⟩
  · intro hp hu
    rw [buildUsernameAndPasswordParams_eq, hid _ hp, hid _ hu]
  · rw [buildUsernameAndPasswordParams_eq]
    show "password=" ++ url.QueryEscape "x&username=admin" ++ "&username="
      ++ url.QueryEscape "u" = _
    decide

/-- The package's test `Test_buildUsernameAndPasswordParams`. -/
theorem buildUsernameAndPasswordParams_encoding_witness :
    (buildUsernameAndPasswordParams
        (New "some_username" "some_password" "192.168.137.253:8000" 5)).1
      = "password=" ++ "some_password" ++ "&username=" ++ "some_username" :=
  (buildUsernameAndPasswordParams_encoding
      (New "some_username" "some_password" "192.168.137.253:8000" 5)).2.2.1
    (by decide) (by decide)

/-! ## Strings: prefixes, suffixes and trimming -/

/-- The cutset `"/"` holds the slash only. -/
theorem slash_contains (c : Char) : "/".data.contains c = true ↔ c = '/' := by
  show ['/'].contains c = true ↔ c = '/'
  simp

/-- A string has the prefix it starts with. -/
theorem HasPrefix_append_left (p t : String) : strings.HasPrefix (p ++ t) p = true := by
  simp [strings.HasPrefix, List.isPrefixOf_iff_prefix]

/-- A prefix stays a prefix when text is appended. -/
theorem HasPrefix_append (s p t : String) (h : strings.HasPrefix s p = true) :
    strings.HasPrefix (s ++ t) p = true := by
  simp only [strings.HasPrefix, List.isPrefixOf_iff_prefix, String.data_append] at h ⊢
  exact h.trans (List.prefix_append _ _)

/-- A string has the suffix it ends with. -/
theorem HasSuffix_append_right (s t : String) : strings.HasSuffix (s ++ t) t = true := by
  simp [strings.HasSuffix, List.isSuffixOf_iff_suffix]

/-- A suffix stays a suffix when text is put in front. -/
theorem HasSuffix_append (u s t : String) (h : strings.HasSuffix s t = true) :
    strings.HasSuffix (u ++ s) t = true := by
  simp only [strings.HasSuffix, List.isSuffixOf_iff_suffix, String.data_append] at h ⊢
  exact h.trans (List.suffix_append _ _)

/-- A list is its part before the trailing run of `p` followed by that run. -/
theorem rdropWhile_append_rtakeWhile (p : Char → Bool) (l : List Char) :
    l.rdropWhile p ++ l.rtakeWhile p = l := by
  simp only [List.rdropWhile, List.rtakeWhile, ← List.reverse_append,
    List.takeWhile_append_dropWhile, List.reverse_reverse]

/-- Trimming on the right is the identity on a string that does not end in a slash. -/
theorem TrimRight_of_not_slash (u : String) (c : Char) (hc : c ≠ '/') :
    strings.TrimRight (u ++ ⟨[c]⟩) "/" = u ++ ⟨[c]⟩ := by
  apply String.ext
  simp only [strings.TrimRight, String.data_append]
  exact List.rdropWhile_concat_neg _ _ _ (by simpa [slash_contains] using hc)

/-- The characters `Trim` keeps, on lists. -/
theorem Trim_data (s : String) :
    (strings.Trim s "/").data
      = (s.data.rdropWhile (fun c => "/".data.contains c)).dropWhile
          (fun c => "/".data.contains c) := rfl

/-- A slash in front does not change what trimming keeps. -/
theorem trim_cons_slash (p : Char → Bool) (x : Char) (hx : p x = true) (l : List Char) :
    ((x :: l).rdropWhile p).dropWhile p = (l.rdropWhile p).dropWhile p := by
  induction l using List.reverseRecOn with
  | nil => simp [List.rdropWhile, hx]
  | append_singleton l y ih =>
    rw [← List.cons_append, List.rdropWhile_concat, List.rdropWhile_concat]
    by_cases hy : p y = true
    · simp only [hy, if_true]; exact ih
    · simp only [hy]; simp [List.dropWhile_cons, hx]

/-- A slash at the end does not change what trimming keeps. -/
theorem trim_concat_slash (p : Char → Bool) (x : Char) (hx : p x = true) (l : List Char) :
    ((l ++ [x]).rdropWhile p).dropWhile p = (l.rdropWhile p).dropWhile p := by
  rw [List.rdropWhile_concat_pos _ _ _ hx]

/-- What trimming keeps neither starts nor ends with a character of the cutset, and the
input is what is kept with runs of cutset characters around it. -/
theorem trim_spec (p : Char → Bool) (l : List Char) :
    ∃ a b : List Char,
      l = a ++ (l.rdropWhile p).dropWhile p ++ b ∧
      (∀ c ∈ a, p c = true) ∧ (∀ c ∈ b, p c = true) ∧
      (∀ c, ((l.rdropWhile p).dropWhile p).head? = some c → p c = false) ∧
      (∀ c, ((l.rdropWhile p).dropWhile p).getLast? = some c → p c = false) := by
  refine ⟨(l.rdropWhile p).takeWhile p, l.rtakeWhile p, ?_, ?_, ?_, ?_, ?_⟩
  · rw [List.takeWhile_append_dropWhile, rdropWhile_append_rtakeWhile]
  · intro c hc; exact List.mem_takeWhile_imp hc
  · intro c hc; exact List.mem_rtakeWhile_imp hc
  · intro c hc
    have := List.head?_dropWhile_not p (l.rdropWhile p)
    rw [hc] at this
    exact this
  · intro c hc
    have hne : (l.rdropWhile p).dropWhile p ≠ [] := by
      intro h; rw [h] at hc; cases hc
    have hsuf : (l.rdropWhile p).dropWhile p <:+ l.rdropWhile p := List.dropWhile_suffix p
    have hne' : l.rdropWhile p ≠ [] := by
      intro h; rw [h] at hne; exact hne rfl
    have hlast := hsuf.getLast hne
    have hnot := List.rdropWhile_last_not p l hne'
    rw [List.getLast?_eq_getLast _ hne] at hc
    injection hc with hc
    rw [← hc, hlast]
    simpa using hnot

/-! ## Resource URLs -/

/-- C9: `buildResource r` is `BaseURL`, then `r` without its leading and trailing slashes (the
part `t` of `r = a ++ t ++ b` with `a` and `b` made of slashes and `t` neither starting
nor ending with one), then one slash; a slash added in front of `r` or at its end does not
change the result; for a connector built by `New` from `h:8000` the resource of
`auth/login` is `http://h:8000/api/auth/login/`; and the connector is unchanged. -/
theorem buildResource_spec (self : IMSAPIConnector) (r : String) :
    (∃ a t b : List Char,
      r.data = a ++ t ++ b ∧ (∀ c ∈ a, c = '/') ∧ (∀ c ∈ b, c = '/') ∧
      t.head? ≠ some '/' ∧ t.getLast? ≠ some '/' ∧
      (buildResource self r).1 = self.BaseURL ++ ⟨t⟩ ++ "/") ∧
    buildResource self ("/" ++ r) = buildResource self r ∧
    buildResource self (r ++ "/") = buildResource self r ∧
    (∀ (username password : String) (timeout : Int),
      (buildResource (New username password "h:8000" timeout) "auth/login").1
        = "http://h:8000/api/auth/login/") ∧
    (buildResource self r).2 = self := by
  refine ⟨?_, ?_, ?_, ?_, rfl⟩
  · obtain ⟨a, b, hab, ha, hb, hh, hl⟩ := trim_spec (fun c => "/".data.contains c) r.data
    refine ⟨a, _, b, hab, ?_, ?_, ?_, ?_, ?_⟩
    · intro c hc; exact (slash_contains c).1 (ha c hc)
    · intro c hc; exact (slash_contains c).1 (hb c hc)
    · intro h; have := hh _ h; simp at this
    · intro h; have := hl _ h; simp at this
    · rfl
  · have : strings.Trim ("/" ++ r) "/" = strings.Trim r "/" := by
      apply String.ext
      rw [Trim_data, Trim_data]
      exact trim_cons_slash _ '/' (by decide) r.data
    simp only [buildResource, this]
  · have : strings.Trim (r ++ "/") "/" = strings.Trim r "/" := by
      apply String.ext
      rw [Trim_data, Trim_data]
      exact trim_concat_slash _ '/' (by decide) r.data
    simp only [buildResource, this]
  · intro username password timeout
    rfl

/-! ## Base URL normalisation -/

/-- The second statement of `New` applied to the result of the first. -/
theorem normalizeBaseURL_eq (x : String) :
    normalizeBaseURL x =
      if strings.HasSuffix (withScheme x) "/api/" then withScheme x
      else strings.TrimRight (withScheme x) "/" ++ "/api/" := by
  show (if !strings.HasSuffix (withScheme x) "/api/" then
      strings.TrimRight (withScheme x) "/" ++ "/api/" else withScheme x) = _
  generalize strings.HasSuffix (withScheme x) "/api/" = b
  cases b <;> rfl

/-- After the first statement of `New` the URL has a scheme. -/
theorem withScheme_scheme (x : String) :
    strings.HasPrefix (withScheme x) "http://" = true ∨
      strings.HasPrefix (withScheme x) "https://" = true := by
  unfold withScheme
  cases h1 : strings.HasPrefix x "http://"
  · cases h2 : strings.HasPrefix x "https://"
    · left; simp [HasPrefix_append_left]
    · right; simp [h2]
  · left; simp [h1]

/-- The first statement of `New` keeps the end of the URL. -/
theorem withScheme_suffix (x t : String) (h : strings.HasSuffix x t = true) :
    strings.HasSuffix (withScheme x) t = true := by
  unfold withScheme
  split
  · exact HasSuffix_append _ _ _ h
  · exact h

/-- A URL with a scheme that ends in `/api/` is its own normal form. -/
theorem normalizeBaseURL_fixed (y : String)
    (hp : strings.HasPrefix y "http://" = true ∨ strings.HasPrefix y "https://" = true)
    (hs : strings.HasSuffix y "/api/" = true) : normalizeBaseURL y = y := by
  have hw : withScheme y = y := by
    unfold withScheme
    rcases hp with hp | hp <;> simp [hp]
  rw [normalizeBaseURL_eq, hw, hs]
  simp

/-- C10: for a raw base URL that ends in `/api/` or in `/api`, the base URL that `New` stores is
a fixed point of the normalisation: `New` applied to it stores the same string. -/
theorem New_base_url_idempotent (username password x : String) (timeout : Int)
    (h : strings.HasSuffix x "/api/" = true ∨ strings.HasSuffix x "/api" = true) :
    (New username password (New username password x timeout).BaseURL timeout).BaseURL
      = (New username password x timeout).BaseURL := by
  show normalizeBaseURL (normalizeBaseURL x) = normalizeBaseURL x
  rw [normalizeBaseURL_eq x]
  cases hs : strings.HasSuffix (withScheme x) "/api/"
  · rcases h with h | h
    · rw [withScheme_suffix x _ h] at hs; cases hs
    · -- the URL ends in "i": trimming changes nothing
      have hy : strings.HasSuffix (withScheme x) "/api" = true := withScheme_suffix x _ h
      have htrim : strings.TrimRight (withScheme x) "/" = withScheme x := by
        simp only [strings.HasSuffix, List.isSuffixOf_iff_suffix] at hy
        obtain ⟨u, hu⟩ := hy
        have hd : withScheme x = (⟨u ++ ['/', 'a', 'p']⟩ : String) ++ ⟨['i']⟩ := by
          apply String.ext
          rw [← hu]
          simp [String.data_append]
        rw [hd]
        exact TrimRight_of_not_slash _ 'i' (by decide)
      simp only [Bool.false_eq_true, if_false, htrim]
      exact normalizeBaseURL_fixed _
        ((withScheme_scheme x).imp (HasPrefix_append _ _ _) (HasPrefix_append _ _ _))
        (HasSuffix_append_right _ _)
  · simp only [if_true]
    exact normalizeBaseURL_fixed _ (withScheme_scheme x) hs

/-- The normalisation is idempotent on `192.168.1.1:8000/api`. -/
theorem New_base_url_idempotent_witness :
    (New "u" "p" (New "u" "p" "192.168.1.1:8000/api" 5).BaseURL 5).BaseURL
      = (New "u" "p" "192.168.1.1:8000/api" 5).BaseURL :=
  New_base_url_idempotent "u" "p" "192.168.1.1:8000/api" 5 (Or.inr (by decide))


/-- C3, at the raw base URLs `""` and `//`, which start with neither `http://` nor
`https://`: `New` stores `http:/api/`, which does not start with `http://`.  Trimming
the trailing slashes also removes the two slashes of the scheme put in front. -/
theorem New_slash_only_base_url :
    (∀ (username password : String) (timeout : Int),
      (New username password "" timeout).BaseURL = "http:/api/" ∧
      (New username password "//" timeout).BaseURL = "http:/api/") ∧
    strings.HasPrefix "" "http://" = false ∧ strings.HasPrefix "" "https://" = false ∧
    strings.HasPrefix "http:/api/" "http://" = false := by
  refine ⟨fun _ _ _ => ⟨rfl, rfl⟩, ?_, ?_, ?_⟩ <;> decide

/-- Trailing characters of `p` are dropped within the last part of a list when that part
has a character outside `p`. -/
theorem rdropWhile_append_of_exists (p : Char → Bool) (a b : List Char)
    (h : ∃ c ∈ b, p c = false) : (a ++ b).rdropWhile p = a ++ b.rdropWhile p := by
  induction b using List.reverseRecOn with
  | nil => obtain ⟨c, hc, _⟩ := h; cases hc
  | append_singleton b y ih =>
    rw [← List.append_assoc, List.rdropWhile_concat, List.rdropWhile_concat]
    by_cases hy : p y = true
    · simp only [hy, if_true]
      apply ih
      obtain ⟨c, hc, hpc⟩ := h
      rcases List.mem_append.1 hc with hc | hc
      · exact ⟨c, hc, hpc⟩
      · simp only [List.mem_singleton] at hc
        subst hc
        rw [hy] at hpc; cases hpc
    · simp only [hy]; simp

/-- The normal form always ends in `/api/`. -/
theorem normalizeBaseURL_suffix (x : String) :
    strings.HasSuffix (normalizeBaseURL x) "/api/" = true := by
  rw [normalizeBaseURL_eq]
  cases hs : strings.HasSuffix (withScheme x) "/api/"
  · simp only [Bool.false_eq_true, if_false]; exact HasSuffix_append_right _ _
  · simpa using hs

/-- For a raw base URL without scheme that has a character other than the slash, the base
URL of the connector starts with `http://` and ends with `/api/`. -/
theorem New_base_url_of_not_all_slashes (username password x : String) (timeout : Int)
    (h1 : strings.HasPrefix x "http://" = false) (h2 : strings.HasPrefix x "https://" = false)
    (hx : ∃ c ∈ x.data, c ≠ '/') :
    strings.HasPrefix (New username password x timeout).BaseURL "http://" = true ∧
    strings.HasSuffix (New username password x timeout).BaseURL "/api/" = true := by
  refine ⟨?_, normalizeBaseURL_suffix x⟩
  show strings.HasPrefix (normalizeBaseURL x) "http://" = true
  have hw : withScheme x = "http://" ++ x := by simp [withScheme, h1, h2]
  rw [normalizeBaseURL_eq, hw]
  cases hs : strings.HasSuffix ("http://" ++ x) "/api/"
  · simp only [Bool.false_eq_true, if_false]
    have ht : strings.TrimRight ("http://" ++ x) "/" = "http://" ++ strings.TrimRight x "/" := by
      apply String.ext
      simp only [strings.TrimRight, String.data_append]
      apply rdropWhile_append_of_exists
      obtain ⟨c, hc, hne⟩ := hx
      refine ⟨c, hc, ?_⟩
      cases hcc : "/".data.contains c
      · rfl
      · exact absurd ((slash_contains c).1 hcc) hne
    rw [ht, String.append_assoc]
    exact HasPrefix_append_left _ _
  · simp only [if_true]
    exact HasPrefix_append_left _ _

/-- The package's test `Test_New`, as far as the base URL goes. -/
theorem New_base_url_of_not_all_slashes_witness :
    strings.HasPrefix (New "some_username" "some_password" "192.168.137.253:8000" 5).BaseURL
      "http://" = true ∧
    strings.HasSuffix (New "some_username" "some_password" "192.168.137.253:8000" 5).BaseURL
      "/api/" = true :=
  New_base_url_of_not_all_slashes _ _ "192.168.137.253:8000" 5 (by decide) (by decide)
    ⟨'1', by decide, by decide⟩


/-! ## The login request -/

/-- The login resource. -/
theorem buildResource_login (self : IMSAPIConnector) :
    buildResource self "auth/login" = (self.BaseURL ++ "auth/login/", self) := by
  have h : strings.Trim "auth/login" "/" = "auth/login" := by decide
  simp only [buildResource, h, String.append_assoc]
  rfl

/-- C4, at a connector that has authenticated: `New "u" "p" "h:8000" 5` is
`authenticatedConnector` after a first `Authenticate` against `loginServer`, and the request
a second `Authenticate` sends has the form-encoded credentials as body but carries
`Content-Type: application/json` and `Authorization: Token tok`, not the form content type
without `Authorization` that the branch for an unauthenticated connector gives the same
body. -/
theorem Authenticate_second_login_request :
    (Authenticate acceptURL (New "u" "p" "h:8000" 5) loginServer).1
      = Outcome.returns (.ok true, authenticatedConnector) ∧
    ((Authenticate acceptURL authenticatedConnector loginServer).2.sent).map
        (fun req => (req.Method, req.URL, req.Body,
          http.Header.Values req.Header "Content-Type",
          http.Header.Values req.Header "Authorization"))
      = [("POST", "http://h:8000/api/auth/login/", "password=p&username=u",
          ["application/json"], ["Token tok"])] ∧
    ["application/json"] ≠ ["application/x-www-form-urlencoded"] ∧
    ["Token tok"] ≠ ([] : List String) := by
  refine ⟨rfl, rfl, by decide, by decide⟩

/-- What `Authenticate` sends when the login URL parses: exactly one request, a `POST` to
`BaseURL` followed by `auth/login/` with the encoded credentials as body and
`Cache-Control: no-cache`.  For a connector with `Authenticated = false` it has the form
content type and no `Authorization` header; for a connector with `Authenticated = true` the
headers are those `buildRequest` gives every request of an authenticated connector. -/
theorem Authenticate_request (parseErr : String → Option Error) (self : IMSAPIConnector)
    (net : Network) (hURL : parseErr (self.BaseURL ++ "auth/login/") = none) :
    ∃ req : http.Request,
      (Authenticate parseErr self net).2.sent = net.sent ++ [req] ∧
      req.Method = "POST" ∧
      req.URL = self.BaseURL ++ "auth/login/" ∧
      req.Body = "password=" ++ url.QueryEscape self.Password ++ "&username="
        ++ url.QueryEscape self.Username ∧
      http.Header.Values req.Header "Cache-Control" = ["no-cache"] ∧
      (self.Authenticated = false →
        http.Header.Values req.Header "Content-Type" = ["application/x-www-form-urlencoded"] ∧
        http.Header.Values req.Header "Authorization" = []) ∧
      (self.Authenticated = true →
        http.Header.Values req.Header "Content-Type" = ["application/json"] ∧
        http.Header.Values req.Header "Authorization" = ["Token " ++ self.Key]) := by
  have hreq := buildRequest_ok parseErr self "POST" (self.BaseURL ++ "auth/login/")
    ("password=" ++ url.QueryEscape self.Password ++ "&username="
      ++ url.QueryEscape self.Username) (Or.inr rfl) hURL
  refine ⟨{ Method := "POST", URL := self.BaseURL ++ "auth/login/",
             Body := "password=" ++ url.QueryEscape self.Password ++ "&username="
               ++ url.QueryEscape self.Username,
             Header :=
              if self.Authenticated then
                [("Cache-Control", ["no-cache"]), ("Content-Type", ["application/json"]),
                 ("Authorization", ["Token " ++ self.Key])]
              else
                [("Cache-Control", ["no-cache"]),
                 ("Content-Type", ["application/x-www-form-urlencoded"])] },
    ?_, rfl, rfl, rfl, ?_, ?_, ?_⟩
  rotate_left
  · cases self.Authenticated <;> rfl
  · intro hA; rw [hA]; exact ⟨rfl, rfl⟩
  · intro hA; rw [hA]; exact ⟨rfl, rfl⟩
  · unfold Authenticate
    simp only [buildResource_login, buildUsernameAndPasswordParams_eq, http.MethodPost, hreq,
      Post]
    rcases net.respond net.sent _ with ⟨body, _ | err⟩
    · simp only []
      cases handleAuthenticationResponse self body <;> rfl
    · rfl

/-- The login request of the connector `New "u" "p" "h:8000" 5`. -/
theorem Authenticate_request_witness :
    ∃ req : http.Request,
      (Authenticate acceptURL (New "u" "p" "h:8000" 5) loginServer).2.sent
        = loginServer.sent ++ [req] ∧
      req.Method = "POST" ∧
      req.URL = (New "u" "p" "h:8000" 5).BaseURL ++ "auth/login/" ∧
      req.Body = "password=" ++ url.QueryEscape (New "u" "p" "h:8000" 5).Password
        ++ "&username=" ++ url.QueryEscape (New "u" "p" "h:8000" 5).Username ∧
      http.Header.Values req.Header "Cache-Control" = ["no-cache"] ∧
      ((New "u" "p" "h:8000" 5).Authenticated = false →
        http.Header.Values req.Header "Content-Type" = ["application/x-www-form-urlencoded"] ∧
        http.Header.Values req.Header "Authorization" = []) ∧
      ((New "u" "p" "h:8000" 5).Authenticated = true →
        http.Header.Values req.Header "Content-Type" = ["application/json"] ∧
        http.Header.Values req.Header "Authorization"
          = ["Token " ++ (New "u" "p" "h:8000" 5).Key]) :=
  Authenticate_request acceptURL (New "u" "p" "h:8000" 5) loginServer rfl


/-! ## The JSON reader needs no more fuel than it has -/

/-- Skipping white space does not lengthen the text. -/
theorem skipSpace_length (cs : List Char) : (json.skipSpace cs).length ≤ cs.length := by
  induction cs with
  | nil => simp [json.skipSpace]
  | cons c cs ih =>
    unfold json.skipSpace
    split
    · exact Nat.le_succ_of_le ih
    · exact Nat.le_refl _

/-- A string literal is followed by less text than it starts in. -/
theorem scanString_length : ∀ (n : Nat) (cs : List Char) (pending : Option Nat)
    (raw acc : List Char) (x : String × String × List Char), cs.length ≤ n →
    json.scanString cs pending raw acc = some x → x.2.2.length < cs.length := by
  intro n
  induction n with
  | zero =>
    intro cs pending raw acc x hn h
    have : cs = [] := List.length_eq_zero.1 (Nat.le_zero.1 hn)
    subst this
    simp [json.scanString] at h
  | succ n ih =>
    intro cs pending raw acc x hn h
    unfold json.scanString at h
    split at h
    · cases h
    · injection h with h; subst h; simp
    · split at h
      · cases h
      · split at h
        · have := ih _ _ _ _ x (by simp at hn ⊢; omega) h
          simp; omega
        · split at h
          · split at h
            · have := ih _ _ _ _ x (by simp at hn ⊢; omega) h
              simp; omega
            · have := ih _ _ _ _ x (by simp at hn ⊢; omega) h
              simp; omega
          · have := ih _ _ _ _ x (by simp at hn ⊢; omega) h
            simp; omega
    · split at h
      · cases h
      · have := ih _ _ _ _ x (by simp at hn ⊢; omega) h
        simp; omega
    · split at h
      · cases h
      · have := ih _ _ _ _ x (by simp at hn ⊢; omega) h
        simp; omega

/-- The text after a run of digits is no longer than the text. -/
theorem dropDigits_length (cs : List Char) :
    (cs.dropWhile json.isDigit).length ≤ cs.length :=
  (List.dropWhile_suffix json.isDigit).length_le

/-- The text after a sign is no longer than the text. -/
theorem scanSign_length (cs : List Char) : (json.scanSign cs).2.length ≤ cs.length := by
  unfold json.scanSign
  split <;> simp

/-- What is left after an exponent is no longer than the text. -/
theorem scanExp_length (acc cs : List Char) (x : String × List Char)
    (h : json.scanExp acc cs = some x) : x.2.length ≤ cs.length := by
  unfold json.scanExp at h
  split at h
  · split at h
    · split at h
      · cases h
      · injection h with h; subst h
        have h1 := dropDigits_length (json.scanSign ‹List Char›).2
        have h2 := scanSign_length ‹List Char›
        simp only [List.length_cons]
        omega
    · injection h with h; subst h; exact Nat.le_refl _
  · injection h with h; subst h; exact Nat.le_refl _

/-- What is left after a fraction and an exponent is no longer than the text. -/
theorem scanFrac_length (acc cs : List Char) (x : String × List Char)
    (h : json.scanFrac acc cs = some x) : x.2.length ≤ cs.length := by
  unfold json.scanFrac at h
  split at h
  · split at h
    · cases h
    · have h1 := scanExp_length _ _ x h
      have h2 := dropDigits_length ‹List Char›
      simp only [List.length_cons]
      omega
  · exact scanExp_length _ _ x h

/-- A number is followed by less text than it starts in. -/
theorem scanInt_length (sign cs : List Char) (x : String × List Char)
    (h : json.scanInt sign cs = some x) : x.2.length < cs.length := by
  unfold json.scanInt at h
  split at h
  · cases h
  · split at h
    · have := scanFrac_length _ _ x h
      simp only [List.length_cons]; omega
    · split at h
      · have h1 := scanFrac_length _ _ x h
        have h2 := dropDigits_length ‹List Char›
        simp only [List.length_cons]; omega
      · cases h

/-- A number is followed by less text than it starts in. -/
theorem scanNumber_length (cs : List Char) (x : String × List Char)
    (h : json.scanNumber cs = some x) : x.2.length < cs.length := by
  unfold json.scanNumber at h
  split at h
  · have := scanInt_length _ _ x h
    simp only [List.length_cons]; omega
  · exact scanInt_length _ _ x h

/-- A reader that consumes text: what it leaves is shorter than what it was given. -/
theorem scalar_shrinks (cs : List Char) (x : json.Value × List Char)
    (h : json.scalar cs = some x) : x.2.length < cs.length := by
  unfold json.scalar at h
  split at h
  · injection h with h; subst h; simp only [List.length_cons]; omega
  · injection h with h; subst h; simp only [List.length_cons]; omega
  · injection h with h; subst h; simp only [List.length_cons]; omega
  · split at h
    · injection h with h; subst h
      have := scanString_length _ _ _ _ _ _ (Nat.le_refl _) ‹_›
      simp only [List.length_cons] at this ⊢; omega
    · cases h
  · split at h
    · injection h with h; subst h
      exact scanNumber_length _ _ ‹_›
    · cases h

/-- An array body is followed by less text than it starts in when its elements are. -/
theorem arrayBody_shrinks (e : json.Reader (List json.Value))
    (he : ∀ cs x, e cs = some x → x.2.length < cs.length)
    (cs : List Char) (x : json.Value × List Char)
    (h : json.arrayBody e cs = some x) : x.2.length < cs.length := by
  unfold json.arrayBody at h
  split at h
  · injection h with h; subst h; simp
  · split at h
    · injection h with h; subst h
      exact he _ _ ‹_›
    · cases h

/-- An object body is followed by less text than it starts in when its members are. -/
theorem objectBody_shrinks (m : json.Reader (List (String × json.Value)))
    (hm : ∀ cs x, m cs = some x → x.2.length < cs.length)
    (cs : List Char) (x : json.Value × List Char)
    (h : json.objectBody m cs = some x) : x.2.length < cs.length := by
  unfold json.objectBody at h
  split at h
  · injection h with h; subst h; simp
  · split at h
    · injection h with h; subst h
      exact hm _ _ ‹_›
    · cases h

/-- A value is followed by less text than it starts in. -/
theorem valueStep_shrinks (e : json.Reader (List json.Value))
    (m : json.Reader (List (String × json.Value)))
    (he : ∀ cs x, e cs = some x → x.2.length < cs.length)
    (hm : ∀ cs x, m cs = some x → x.2.length < cs.length)
    (cs : List Char) (x : json.Value × List Char)
    (h : json.valueStep e m cs = some x) : x.2.length < cs.length := by
  unfold json.valueStep at h
  have h0 := skipSpace_length cs
  split at h
  · rename_i r heq
    have h1 := arrayBody_shrinks e he _ x h
    have h2 := skipSpace_length r
    rw [heq] at h0; simp only [List.length_cons] at h0; omega
  · rename_i r heq
    have h1 := objectBody_shrinks m hm _ x h
    have h2 := skipSpace_length r
    rw [heq] at h0; simp only [List.length_cons] at h0; omega
  · have h1 := scalar_shrinks _ x h
    omega

/-- The elements of an array and its closing bracket take text. -/
theorem elementsStep_shrinks (v : json.Reader json.Value) (e : json.Reader (List json.Value))
    (hv : ∀ cs x, v cs = some x → x.2.length < cs.length)
    (he : ∀ cs x, e cs = some x → x.2.length < cs.length)
    (cs : List Char) (x : List json.Value × List Char)
    (h : json.elementsStep v e cs = some x) : x.2.length < cs.length := by
  unfold json.elementsStep at h
  split at h
  · cases h
  · rename_i w r hw
    have h1 := hv _ _ hw
    have h2 := skipSpace_length r
    simp only at h1
    split at h
    · rename_i r' heq
      rw [heq] at h2; simp only [List.length_cons] at h2
      split at h
      · injection h with h; subst h
        have := he _ _ ‹_›
        simp only at this ⊢; omega
      · cases h
    · rename_i r' heq
      rw [heq] at h2; simp only [List.length_cons] at h2
      injection h with h; subst h
      simp only; omega
    · cases h

/-- The members of an object and its closing brace take text. -/
theorem membersStep_shrinks (v : json.Reader json.Value)
    (m : json.Reader (List (String × json.Value)))
    (hv : ∀ cs x, v cs = some x → x.2.length < cs.length)
    (hm : ∀ cs x, m cs = some x → x.2.length < cs.length)
    (cs : List Char) (x : List (String × json.Value) × List Char)
    (h : json.membersStep v m cs = some x) : x.2.length < cs.length := by
  unfold json.membersStep at h
  have h0 := skipSpace_length cs
  split at h
  · rename_i r0 heq0
    rw [heq0] at h0; simp only [List.length_cons] at h0
    split at h
    · cases h
    · rename_i raw key r1 hs
      have h1 := scanString_length _ _ _ _ _ _ (Nat.le_refl _) hs
      have h2 := skipSpace_length r1
      simp only at h1
      split at h
      · rename_i r2 heq2
        rw [heq2] at h2; simp only [List.length_cons] at h2
        split at h
        · cases h
        · rename_i w r3 hw
          have h3 := hv _ _ hw
          have h4 := skipSpace_length r3
          simp only at h3
          split at h
          · rename_i r4 heq4
            rw [heq4] at h4; simp only [List.length_cons] at h4
            split at h
            · injection h with h; subst h
              have := hm _ _ ‹_›
              simp only at this ⊢; omega
            · cases h
          · rename_i r4 heq4
            rw [heq4] at h4; simp only [List.length_cons] at h4
            injection h with h; subst h
            simp only; omega
          · cases h
      · cases h
  · cases h

/-- Every reader of JSON takes text, whatever its fuel. -/
theorem parse_shrinks (n : Nat) :
    (∀ cs x, json.parseValue n cs = some x → x.2.length < cs.length) ∧
    (∀ cs x, json.parseElements n cs = some x → x.2.length < cs.length) ∧
    (∀ cs x, json.parseMembers n cs = some x → x.2.length < cs.length) := by
  induction n with
  | zero =>
    refine ⟨?_, ?_, ?_⟩ <;> intro cs x h
    · simp [json.parseValue] at h
    · simp [json.parseElements] at h
    · simp [json.parseMembers] at h
  | succ n ih =>
    obtain ⟨hv, he, hm⟩ := ih
    refine ⟨?_, ?_, ?_⟩ <;> intro cs x h
    · rw [json.parseValue] at h; exact valueStep_shrinks _ _ he hm cs x h
    · rw [json.parseElements] at h; exact elementsStep_shrinks _ _ hv he cs x h
    · rw [json.parseMembers] at h; exact membersStep_shrinks _ _ hv hm cs x h

/-- An array body read with one reader of elements is read with another that reads what
the first one reads on the same text. -/
theorem arrayBody_transfer (e e' : json.Reader (List json.Value)) (cs : List Char)
    (he : ∀ x, e cs = some x → e' cs = some x) (x : json.Value × List Char)
    (h : json.arrayBody e cs = some x) : json.arrayBody e' cs = some x := by
  unfold json.arrayBody at h ⊢
  split at h
  · exact h
  · rename_i hne
    split at h
    · rename_i xs r' hxs
      rw [he _ hxs]; exact h
    · cases h

/-- An object body read with one reader of members is read with another that reads what
the first one reads on the same text. -/
theorem objectBody_transfer (m m' : json.Reader (List (String × json.Value)))
    (cs : List Char) (hm : ∀ x, m cs = some x → m' cs = some x)
    (x : json.Value × List Char)
    (h : json.objectBody m cs = some x) : json.objectBody m' cs = some x := by
  unfold json.objectBody at h ⊢
  split at h
  · exact h
  · rename_i hne
    split at h
    · rename_i ms r' hms
      rw [hm _ hms]; exact h
    · cases h

/-- A value read with readers `e`, `m` is read with readers that read what `e` and `m` read
on shorter texts. -/
theorem valueStep_transfer (e e' : json.Reader (List json.Value))
    (m m' : json.Reader (List (String × json.Value))) (cs : List Char)
    (he : ∀ cs' : List Char, cs'.length < cs.length → ∀ x, e cs' = some x → e' cs' = some x)
    (hm : ∀ cs' : List Char, cs'.length < cs.length → ∀ x, m cs' = some x → m' cs' = some x)
    (x : json.Value × List Char)
    (h : json.valueStep e m cs = some x) : json.valueStep e' m' cs = some x := by
  unfold json.valueStep at h ⊢
  have h0 := skipSpace_length cs
  generalize json.skipSpace cs = s at h h0 ⊢
  split at h
  · rename_i r
    have h2 := skipSpace_length r
    exact arrayBody_transfer e e' _
      (he _ (by simp only [List.length_cons] at h0; omega)) x h
  · rename_i r
    have h2 := skipSpace_length r
    exact objectBody_transfer m m' _
      (hm _ (by simp only [List.length_cons] at h0; omega)) x h
  · exact h

/-- The elements read with readers `v`, `e` are read with readers that read what `v` reads
on the same text and what `e` reads on shorter texts. -/
theorem elementsStep_transfer (v v' : json.Reader json.Value)
    (e e' : json.Reader (List json.Value)) (cs : List Char)
    (hshrink : ∀ x, v cs = some x → x.2.length < cs.length)
    (hv : ∀ x, v cs = some x → v' cs = some x)
    (he : ∀ cs' : List Char, cs'.length < cs.length → ∀ x, e cs' = some x → e' cs' = some x)
    (x : List json.Value × List Char)
    (h : json.elementsStep v e cs = some x) : json.elementsStep v' e' cs = some x := by
  unfold json.elementsStep at h ⊢
  split at h
  · cases h
  · rename_i w r hw
    have h1 := hshrink _ hw
    have h2 := skipSpace_length r
    simp only at h1
    rw [hv _ hw]
    simp only
    generalize json.skipSpace r = s at h h2 ⊢
    split at h
    · rename_i r'
      split at h
      · rename_i vs r'' hvs
        rw [he _ (by simp only [List.length_cons] at h2; omega) _ hvs]
        exact h
      · cases h
    · exact h
    · cases h

/-- The members read with readers `v`, `m` are read with readers that read what `v` and `m`
read on shorter texts. -/
theorem membersStep_transfer (v v' : json.Reader json.Value)
    (m m' : json.Reader (List (String × json.Value))) (cs : List Char)
    (hshrink : ∀ cs' x, v cs' = some x → x.2.length < cs'.length)
    (hv : ∀ cs' : List Char, cs'.length < cs.length → ∀ x, v cs' = some x → v' cs' = some x)
    (hm : ∀ cs' : List Char, cs'.length < cs.length → ∀ x, m cs' = some x → m' cs' = some x)
    (x : List (String × json.Value) × List Char)
    (h : json.membersStep v m cs = some x) : json.membersStep v' m' cs = some x := by
  unfold json.membersStep at h ⊢
  have h0 := skipSpace_length cs
  generalize json.skipSpace cs = s at h h0 ⊢
  split at h
  · rename_i r0
    simp only [List.length_cons] at h0
    split at h
    · cases h
    · rename_i raw key r1 hs
      have h1 := scanString_length _ _ _ _ _ _ (Nat.le_refl _) hs
      have h2 := skipSpace_length r1
      simp only at h1
      generalize json.skipSpace r1 = s1 at h h2 ⊢
      split at h
      · rename_i r2
        simp only [List.length_cons] at h2
        split at h
        · cases h
        · rename_i w r3 hw
          have h3 := hshrink _ _ hw
          have h4 := skipSpace_length r3
          simp only at h3
          rw [hv _ (by omega) _ hw]
          simp only
          generalize json.skipSpace r3 = s3 at h h4 ⊢
          split at h
          · rename_i r4
            simp only [List.length_cons] at h4
            split at h
            · rename_i ms r5 hms
              rw [hm _ (by omega) _ hms]
              exact h
            · cases h
          · exact h
          · cases h
      · cases h
  · cases h

/-- One more unit of fuel reads whatever was read. -/
theorem parse_fuel_succ (n : Nat) :
    (∀ cs x, json.parseValue n cs = some x → json.parseValue (n + 1) cs = some x) ∧
    (∀ cs x, json.parseElements n cs = some x → json.parseElements (n + 1) cs = some x) ∧
    (∀ cs x, json.parseMembers n cs = some x → json.parseMembers (n + 1) cs = some x) := by
  induction n with
  | zero =>
    refine ⟨?_, ?_, ?_⟩ <;> intro cs x h
    · simp [json.parseValue] at h
    · simp [json.parseElements] at h
    · simp [json.parseMembers] at h
  | succ n ih =>
    obtain ⟨hv, he, hm⟩ := ih
    obtain ⟨sv, _, _⟩ := parse_shrinks n
    refine ⟨?_, ?_, ?_⟩ <;> intro cs x h
    · rw [json.parseValue] at h ⊢
      exact valueStep_transfer _ _ _ _ cs (fun cs' _ => he cs') (fun cs' _ => hm cs') x h
    · rw [json.parseElements] at h ⊢
      exact elementsStep_transfer _ _ _ _ cs (sv cs) (hv cs) (fun cs' _ => he cs') x h
    · rw [json.parseMembers] at h ⊢
      exact membersStep_transfer _ _ _ _ cs sv (fun cs' _ => hv cs') (fun cs' _ => hm cs') x h

/-- More fuel reads whatever was read. -/
theorem parse_fuel_mono (n m : Nat) (hnm : n ≤ m) :
    (∀ cs x, json.parseValue n cs = some x → json.parseValue m cs = some x) ∧
    (∀ cs x, json.parseElements n cs = some x → json.parseElements m cs = some x) ∧
    (∀ cs x, json.parseMembers n cs = some x → json.parseMembers m cs = some x) := by
  induction hnm with
  | refl => exact ⟨fun _ _ h => h, fun _ _ h => h, fun _ _ h => h⟩
  | step _ ih =>
    obtain ⟨hv, he, hm⟩ := ih
    obtain ⟨sv, se, sm⟩ := parse_fuel_succ _
    exact ⟨fun cs x h => sv cs x (hv cs x h), fun cs x h => se cs x (he cs x h),
      fun cs x h => sm cs x (hm cs x h)⟩

/-- What is read with some fuel is read with fuel twice the length of the text (and one
more for the elements of an array and the members of an object). -/
theorem parse_fuel_enough (n : Nat) :
    (∀ cs x, json.parseValue n cs = some x → json.parseValue (2 * cs.length) cs = some x) ∧
    (∀ cs x, json.parseElements n cs = some x →
      json.parseElements (2 * cs.length + 1) cs = some x) ∧
    (∀ cs x, json.parseMembers n cs = some x →
      json.parseMembers (2 * cs.length + 1) cs = some x) := by
  induction n with
  | zero =>
    refine ⟨?_, ?_, ?_⟩ <;> intro cs x h
    · simp [json.parseValue] at h
    · simp [json.parseElements] at h
    · simp [json.parseMembers] at h
  | succ n ih =>
    obtain ⟨hv, he, hm⟩ := ih
    obtain ⟨sv, _, _⟩ := parse_shrinks n
    refine ⟨?_, ?_, ?_⟩ <;> intro cs x h
    · have hpos : x.2.length < cs.length := (parse_shrinks (n + 1)).1 cs x h
      obtain ⟨k, hk⟩ : ∃ k, 2 * cs.length = k + 1 := ⟨2 * cs.length - 1, by omega⟩
      rw [hk]
      rw [json.parseValue] at h ⊢
      refine valueStep_transfer _ _ _ _ cs ?_ ?_ x h
      · intro cs' hlt y hy
        exact (parse_fuel_mono _ _ (by omega)).2.1 cs' y (he cs' y hy)
      · intro cs' hlt y hy
        exact (parse_fuel_mono _ _ (by omega)).2.2 cs' y (hm cs' y hy)
    · rw [json.parseElements] at h ⊢
      refine elementsStep_transfer _ _ _ _ cs (sv cs) (hv cs) ?_ x h
      intro cs' hlt y hy
      exact (parse_fuel_mono _ _ (by omega)).2.1 cs' y (he cs' y hy)
    · rw [json.parseMembers] at h ⊢
      refine membersStep_transfer _ _ _ _ cs sv ?_ ?_ x h
      · intro cs' hlt y hy
        exact (parse_fuel_mono _ _ (by omega)).1 cs' y (hv cs' y hy)
      · intro cs' hlt y hy
        exact (parse_fuel_mono _ _ (by omega)).2.2 cs' y (hm cs' y hy)

/-- The fuel of `parse` is enough: a text that some amount of fuel reads as one value with
white space after it is read by `parse` as that value. -/
theorem parseValue_fuel (data : String) (n : Nat) (v : json.Value) (rest : List Char)
    (h : json.parseValue n data.data = some (v, rest)) (hrest : json.skipSpace rest = []) :
    json.parse data = some v := by
  have h1 := (parse_fuel_enough n).1 _ _ h
  have h2 := (parse_fuel_mono _ (2 * data.length + 2) (by
    show 2 * data.data.length ≤ 2 * data.data.length + 2
    omega)).1 _ _ h1
  unfold json.parse
  rw [h2]
  simp [hrest]

/-- A text that `parse` reads is read with its fuel, as one value with white space after
it. -/
theorem parse_fuel (data : String) (v : json.Value) (h : json.parse data = some v) :
    ∃ n rest, json.parseValue n data.data = some (v, rest) ∧ json.skipSpace rest = [] := by
  unfold json.parse at h
  split at h
  · rename_i w r hw
    split at h
    · injection h with h; subst h
      exact ⟨_, r, hw, by simpa using ‹(json.skipSpace r).isEmpty = true›⟩
    · cases h
  · cases h

/-! ## Decoding asset lists -/

/-- A list of integer values decodes to the integers. -/
theorem decodeInt_mapM (vs : List json.Value) (ns : List Int) (h : List.Forall₂ IsInt vs ns) :
    vs.mapM (fun x => json.decodeInt x 0) = Except.ok ns := by
  induction h with
  | nil => rfl
  | cons hx _ ih =>
    obtain ⟨lit, rfl, hlit⟩ := hx
    rw [List.mapM_cons, ih]
    simp only [json.decodeInt, hlit]
    rfl

/-- The fields the ten keys of an asset object are decoded into: `is_deleted` and
`json_data` match no field. -/
theorem findField_assetKeys :
    json.findField json.assetFields "id" = some ⟨"ID", "id"⟩ ∧
    json.findField json.assetFields "name" = some ⟨"Name", "name"⟩ ∧
    json.findField json.assetFields "is_deleted" = none ∧
    json.findField json.assetFields "last_updated" = some ⟨"LastUpdated", "last_updated"⟩ ∧
    json.findField json.assetFields "note" = some ⟨"Note", "note"⟩ ∧
    json.findField json.assetFields "json_data" = none ∧
    json.findField json.assetFields "type_id" = some ⟨"TypeID", "type_id"⟩ ∧
    json.findField json.assetFields "primary_ip_device_id"
      = some ⟨"PrimaryIPDeviceID", "primary_ip_device_id"⟩ ∧
    json.findField json.assetFields "site_id" = some ⟨"SiteID", "site_id"⟩ ∧
    json.findField json.assetFields "tags" = some ⟨"Tags", "tags"⟩ := by
  decide!

/-- The member `id` sets `ID`. -/
theorem assetMember_id (a : Asset) (lit : String) (n : Int)
    (h : json.parseInt64 lit = some n) :
    json.assetMember a ("id", json.Value.number lit) = Except.ok { a with ID := n } := by
  simp only [json.assetMember, findField_assetKeys.1, json.setAssetField, String.reduceEq,
    ↓reduceIte, json.decodeInt, h]
  rfl

/-- The member `name` sets `Name`. -/
theorem assetMember_name (a : Asset) (raw s : String) :
    json.assetMember a ("name", json.Value.string raw s) = Except.ok { a with Name := s } := by
  simp only [json.assetMember, findField_assetKeys.2.1, json.setAssetField, String.reduceEq,
    ↓reduceIte, json.decodeString]
  rfl

/-- The member `is_deleted` is skipped. -/
theorem assetMember_is_deleted (a : Asset) (v : json.Value) :
    json.assetMember a ("is_deleted", v) = Except.ok a := by
  simp only [json.assetMember, findField_assetKeys.2.2.1]

/-- The member `last_updated` sets `LastUpdated`. -/
theorem assetMember_last_updated (a : Asset) (raw s : String) (t : time.Time)
    (h : time.parseRFC3339 raw = some t) :
    json.assetMember a ("last_updated", json.Value.string raw s)
      = Except.ok { a with LastUpdated := t } := by
  simp only [json.assetMember, findField_assetKeys.2.2.2.1, json.setAssetField,
    String.reduceEq, ↓reduceIte, json.decodeTime, h]
  rfl

/-- The member `note` with `null` leaves `Note` as it is. -/
theorem assetMember_note_null (a : Asset) :
    json.assetMember a ("note", json.Value.null) = Except.ok a := by
  simp only [json.assetMember, findField_assetKeys.2.2.2.2.1, json.setAssetField,
    String.reduceEq, ↓reduceIte, json.decodeString]
  rfl

/-- The member `note` with a string sets `Note`. -/
theorem assetMember_note (a : Asset) (raw s : String) :
    json.assetMember a ("note", json.Value.string raw s) = Except.ok { a with Note := s } := by
  simp only [json.assetMember, findField_assetKeys.2.2.2.2.1, json.setAssetField,
    String.reduceEq, ↓reduceIte, json.decodeString]
  rfl

/-- The member `json_data` is skipped. -/
theorem assetMember_json_data (a : Asset) (v : json.Value) :
    json.assetMember a ("json_data", v) = Except.ok a := by
  simp only [json.assetMember, findField_assetKeys.2.2.2.2.2.1]

/-- The member `type_id` sets `TypeID`. -/
theorem assetMember_type_id (a : Asset) (lit : String) (n : Int)
    (h : json.parseInt64 lit = some n) :
    json.assetMember a ("type_id", json.Value.number lit)
      = Except.ok { a with TypeID := n } := by
  simp only [json.assetMember, findField_assetKeys.2.2.2.2.2.2.1, json.setAssetField,
    String.reduceEq, ↓reduceIte, json.decodeInt, h]
  rfl

/-- The member `primary_ip_device_id` sets `PrimaryIPDeviceID`. -/
theorem assetMember_primary_ip_device_id (a : Asset) (lit : String) (n : Int)
    (h : json.parseInt64 lit = some n) :
    json.assetMember a ("primary_ip_device_id", json.Value.number lit)
      = Except.ok { a with PrimaryIPDeviceID := n } := by
  simp only [json.assetMember, findField_assetKeys.2.2.2.2.2.2.2.1, json.setAssetField,
    String.reduceEq, ↓reduceIte, json.decodeInt, h]
  rfl

/-- The member `site_id` sets `SiteID`. -/
theorem assetMember_site_id (a : Asset) (lit : String) (n : Int)
    (h : json.parseInt64 lit = some n) :
    json.assetMember a ("site_id", json.Value.number lit)
      = Except.ok { a with SiteID := n } := by
  simp only [json.assetMember, findField_assetKeys.2.2.2.2.2.2.2.2.1, json.setAssetField,
    String.reduceEq, ↓reduceIte, json.decodeInt, h]
  rfl

/-- The member `tags` sets `Tags`. -/
theorem assetMember_tags (a : Asset) (vs : List json.Value) (ns : List Int)
    (h : List.Forall₂ IsInt vs ns) :
    json.assetMember a ("tags", json.Value.array vs) = Except.ok { a with Tags := ns } := by
  simp only [json.assetMember, findField_assetKeys.2.2.2.2.2.2.2.2.2, json.setAssetField,
    String.reduceEq, ↓reduceIte, json.decodeIntSlice, decodeInt_mapM vs ns h]
  rfl

/-- Decoding one member of a well-formed asset object succeeds and keeps the agreement. -/
theorem assetMember_agrees (o : AssetObject) (seen : List String) (a : Asset)
    (k : String) (v : json.Value) (hA : Agrees o seen a) (hm : EncodesMember o (k, v)) :
    ∃ a', json.assetMember a (k, v) = Except.ok a' ∧ Agrees o (k :: seen) a' := by
  obtain ⟨h1, h2, h3, h4, h5, h6, h7, h8, h9, h10, h11⟩ := hA
  unfold EncodesMember at hm
  dsimp only at hm
  rcases hm with ⟨hk, lit, hv, hlit⟩ | ⟨hk, raw, hv⟩ | ⟨hk, hv⟩ | ⟨hk, raw, s, hv, ht⟩ |
    ⟨hk, ⟨hv, hn⟩ | ⟨raw, s, hv, hn⟩⟩ | ⟨hk, hv⟩ | ⟨hk, lit, hv, hlit⟩ | ⟨hk, lit, hv, hlit⟩ |
    ⟨hk, lit, hv, hlit⟩ | ⟨hk, vs, hv, hvs⟩
  · subst hk; subst hv
    refine ⟨_, assetMember_id a lit o.id hlit, ?_⟩
    unfold Agrees
    simp only [List.mem_cons, String.reduceEq, false_or, true_or, true_implies]
    exact ⟨trivial, h2, h3, h4, h5, h6, h7, h8, h9, h10, h11⟩
  · subst hk; subst hv
    refine ⟨_, assetMember_name a raw o.name, ?_⟩
    unfold Agrees
    simp only [List.mem_cons, String.reduceEq, false_or, true_or, true_implies]
    exact ⟨h1, trivial, h3, h4, h5, h6, h7, h8, h9, h10, h11⟩
  · subst hk; subst hv
    refine ⟨_, assetMember_is_deleted a _, ?_⟩
    unfold Agrees
    simp only [List.mem_cons, String.reduceEq, false_or, true_or, true_implies]
    exact ⟨h1, h2, h3, h4, h5, h6, h7, h8, h9, h10, h11⟩
  · subst hk; subst hv
    refine ⟨_, assetMember_last_updated a raw s o.last_updated ht, ?_⟩
    unfold Agrees
    simp only [List.mem_cons, String.reduceEq, false_or, true_or, true_implies]
    exact ⟨h1, h2, trivial, h4, h5, h6, h7, h8, h9, h10, h11⟩
  · subst hk; subst hv
    refine ⟨_, assetMember_note_null a, ?_⟩
    unfold Agrees
    simp only [List.mem_cons, String.reduceEq, false_or, true_or, true_implies]
    exact ⟨h1, h2, h3, h4, h5, h6, h7, h8,
      fun s hs => (by rw [hn] at hs; cases hs), h10, h11⟩
  · subst hk; subst hv
    refine ⟨_, assetMember_note a raw s, ?_⟩
    unfold Agrees
    simp only [List.mem_cons, String.reduceEq, false_or, true_or, true_implies]
    exact ⟨h1, h2, h3, h4, h5, h6, h7, fun h => (by rw [hn] at h; cases h),
      fun t ht => (by rw [hn] at ht; injection ht), h10, h11⟩
  · subst hk; subst hv
    refine ⟨_, assetMember_json_data a _, ?_⟩
    unfold Agrees
    simp only [List.mem_cons, String.reduceEq, false_or, true_or, true_implies]
    exact ⟨h1, h2, h3, h4, h5, h6, h7, h8, h9, h10, h11⟩
  · subst hk; subst hv
    refine ⟨_, assetMember_type_id a lit o.type_id hlit, ?_⟩
    unfold Agrees
    simp only [List.mem_cons, String.reduceEq, false_or, true_or, true_implies]
    exact ⟨h1, h2, h3, trivial, h5, h6, h7, h8, h9, h10, h11⟩
  · subst hk; subst hv
    refine ⟨_, assetMember_primary_ip_device_id a lit o.primary_ip_device_id hlit, ?_⟩
    unfold Agrees
    simp only [List.mem_cons, String.reduceEq, false_or, true_or, true_implies]
    exact ⟨h1, h2, h3, h4, trivial, h6, h7, h8, h9, h10, h11⟩
  · subst hk; subst hv
    refine ⟨_, assetMember_site_id a lit o.site_id hlit, ?_⟩
    unfold Agrees
    simp only [List.mem_cons, String.reduceEq, false_or, true_or, true_implies]
    exact ⟨h1, h2, h3, h4, h5, trivial, h7, h8, h9, h10, h11⟩
  · subst hk; subst hv
    refine ⟨_, assetMember_tags a vs o.tags hvs, ?_⟩
    unfold Agrees
    simp only [List.mem_cons, String.reduceEq, false_or, true_or, true_implies]
    exact ⟨h1, h2, h3, h4, h5, h6, trivial, h8, h9, h10, h11⟩

/-- Decoding the members of a well-formed asset object succeeds and keeps the agreement. -/
theorem foldlM_assetMember_agrees (o : AssetObject) (ms : List (String × json.Value)) :
    ∀ (seen : List String) (a : Asset), Agrees o seen a → (∀ m ∈ ms, EncodesMember o m) →
      ∃ a', ms.foldlM json.assetMember a = Except.ok a' ∧
        Agrees o ((ms.map Prod.fst).reverse ++ seen) a' := by
  induction ms with
  | nil => intro seen a hA _; exact ⟨a, rfl, by simpa using hA⟩
  | cons m ms ih =>
    intro seen a hA hms
    obtain ⟨a1, h1, hA1⟩ := assetMember_agrees o seen a m.1 m.2 hA (hms m (List.mem_cons_self _ _))
    obtain ⟨a', h', hA'⟩ := ih (m.1 :: seen) a1 hA1
      (fun x hx => hms x (List.mem_cons_of_mem _ hx))
    refine ⟨a', ?_, ?_⟩
    · rw [List.foldlM_cons, h1]; exact h'
    · simpa [List.append_assoc] using hA'

/-- The zero record agrees with everything when no key was seen. -/
theorem agrees_zero (o : AssetObject) : Agrees o [] Asset.zero := by
  simp [Agrees, Asset.zero]

/-- What the decoder makes of a well-formed asset object. -/
theorem decodeAsset_wellFormed (v : json.Value) (o : AssetObject) (h : IsAssetObject v o) :
    ∃ a, json.decodeAsset v Asset.zero = Except.ok a ∧
      a.ID = o.id ∧ a.Name = o.name ∧ a.LastUpdated = o.last_updated ∧ a.TypeID = o.type_id ∧
      a.PrimaryIPDeviceID = o.primary_ip_device_id ∧ a.SiteID = o.site_id ∧
      a.Tags = o.tags ∧ a.Note = o.note.getD "" ∧
      a.IsDeleted = false ∧ a.JSONData = json.Value.null := by
  obtain ⟨ms, rfl, hms, hkeys⟩ := h
  obtain ⟨a, ha, h1, h2, h3, h4, h5, h6, h7, h8, h9, h10, h11⟩ :=
    foldlM_assetMember_agrees o ms [] Asset.zero (agrees_zero o) hms
  have hmem : ∀ k ∈ assetKeys, k ∈ (ms.map Prod.fst).reverse ++ [] := by
    intro k hk; simpa using hkeys k hk
  refine ⟨a, ha, h1 (hmem _ (by decide)), h2 (hmem _ (by decide)), h3 (hmem _ (by decide)),
    h4 (hmem _ (by decide)), h5 (hmem _ (by decide)), h6 (hmem _ (by decide)),
    h7 (hmem _ (by decide)), ?_, h10, h11⟩
  cases hn : o.note with
  | none => simpa using h8 hn
  | some s => simpa using h9 s hn (hmem _ (by decide))


/-- What the decoder makes of a list of well-formed asset objects. -/
theorem decodeAsset_mapM (vs : List json.Value) (os : List AssetObject)
    (h : List.Forall₂ IsAssetObject vs os) :
    ∃ assets : List Asset,
      vs.mapM (fun x => json.decodeAsset x Asset.zero) = Except.ok assets ∧
      List.Forall₂ (fun a o =>
        a.ID = o.id ∧ a.Name = o.name ∧ a.TypeID = o.type_id ∧
        a.PrimaryIPDeviceID = o.primary_ip_device_id ∧ a.SiteID = o.site_id ∧
        a.Note = o.note.getD "" ∧ a.Tags = o.tags) assets os := by
  induction h with
  | nil => exact ⟨[], rfl, List.Forall₂.nil⟩
  | cons hx _ ih =>
    obtain ⟨a, ha, h1, h2, _, h4, h5, h6, h7, h8, _, _⟩ := decodeAsset_wellFormed _ _ hx
    obtain ⟨as, has, hall⟩ := ih
    refine ⟨a :: as, ?_, List.Forall₂.cons ⟨h1, h2, h4, h5, h6, h8, h7⟩ hall⟩
    rw [List.mapM_cons, ha, has]
    rfl

/-- C5: for a body that is a JSON array of `n` well-formed asset objects (read as such with
some amount of fuel), `handleGetAssetsResponse` returns no error and `n` records in the order of the array, each
with the `id`, `name`, `type_id`, `primary_ip_device_id` and `site_id` of its object, the
note of its object (the empty string when the note is `null`) and the tags of its object
in their order. -/
theorem handleGetAssetsResponse_wellFormed (self : IMSAPIConnector) (body : String)
    (fuel : Nat) (rest : List Char) (vs : List json.Value) (os : List AssetObject)
    (hParse : json.parseValue fuel body.data = some (json.Value.array vs, rest))
    (hRest : json.skipSpace rest = [])
    (hObjects : List.Forall₂ IsAssetObject vs os) :
    ∃ assets : List Asset,
      handleGetAssetsResponse self body = (.ok assets, self) ∧
      assets.length = vs.length ∧
      List.Forall₂ (fun a o =>
        a.ID = o.id ∧ a.Name = o.name ∧ a.TypeID = o.type_id ∧
        a.PrimaryIPDeviceID = o.primary_ip_device_id ∧ a.SiteID = o.site_id ∧
        a.Note = o.note.getD "" ∧ a.Tags = o.tags) assets os := by
  obtain ⟨assets, hdec, hall⟩ := decodeAsset_mapM vs os hObjects
  have hJSON : json.parse body = some (json.Value.array vs) :=
    parseValue_fuel body fuel _ rest hParse hRest
  refine ⟨assets, ?_, ?_, hall⟩
  · simp only [handleGetAssetsResponse, json.UnmarshalAssets, hJSON, json.decodeAssets, hdec]
  · rw [hall.length_eq, hObjects.length_eq]

set_option maxRecDepth 100000 in
/-- The package's test `Test_handleGetAssetsResponse`. -/
theorem handleGetAssetsResponse_wellFormed_witness :
    ∃ assets : List Asset,
      handleGetAssetsResponse (New "some_username" "some_password" "192.168.137.253:8000" 5)
          testAssetsBody
        = (.ok assets, New "some_username" "some_password" "192.168.137.253:8000" 5) ∧
      assets.length = testAssetsValues.length ∧
      List.Forall₂ (fun a o =>
        a.ID = o.id ∧ a.Name = o.name ∧ a.TypeID = o.type_id ∧
        a.PrimaryIPDeviceID = o.primary_ip_device_id ∧ a.SiteID = o.site_id ∧
        a.Note = o.note.getD "" ∧ a.Tags = o.tags) assets testAssetsObjects :=
  handleGetAssetsResponse_wellFormed _ testAssetsBody 32 [] testAssetsValues testAssetsObjects
    rfl rfl
    (List.Forall₂.cons
      ⟨_, rfl,
        by
          simp only [List.forall_mem_cons]
          exact ⟨Or.inl ⟨rfl, _, rfl, by decide⟩,
            Or.inr (Or.inl ⟨rfl, _, rfl⟩),
            Or.inr (Or.inr (Or.inl ⟨rfl, rfl⟩)),
            Or.inr (Or.inr (Or.inr (Or.inl ⟨rfl, _, _, rfl, by decide⟩))),
            Or.inr (Or.inr (Or.inr (Or.inr (Or.inl ⟨rfl, Or.inl ⟨rfl, rfl⟩⟩)))),
            Or.inr (Or.inr (Or.inr (Or.inr (Or.inr (Or.inl ⟨rfl, rfl⟩))))),
            Or.inr (Or.inr (Or.inr (Or.inr (Or.inr (Or.inr (Or.inl ⟨rfl, _, rfl, by decide⟩)))))),
            Or.inr (Or.inr (Or.inr (Or.inr (Or.inr (Or.inr (Or.inr
              (Or.inl ⟨rfl, _, rfl, by decide⟩))))))),
            Or.inr (Or.inr (Or.inr (Or.inr (Or.inr (Or.inr (Or.inr (Or.inr
              (Or.inl ⟨rfl, _, rfl, by decide⟩)))))))),
            Or.inr (Or.inr (Or.inr (Or.inr (Or.inr (Or.inr (Or.inr (Or.inr
              (Or.inr ⟨rfl, _, rfl,
                List.Forall₂.cons ⟨_, rfl, by decide⟩ List.Forall₂.nil⟩)))))))),
            fun _ h => absurd h (List.not_mem_nil _)⟩,
        by decide⟩
      (List.Forall₂.cons
        ⟨_, rfl,
          by
            simp only [List.forall_mem_cons]
            exact ⟨Or.inl ⟨rfl, _, rfl, by decide⟩,
              Or.inr (Or.inl ⟨rfl, _, rfl⟩),
              Or.inr (Or.inr (Or.inl ⟨rfl, rfl⟩)),
              Or.inr (Or.inr (Or.inr (Or.inl ⟨rfl, _, _, rfl, by decide⟩))),
              Or.inr (Or.inr (Or.inr (Or.inr (Or.inl ⟨rfl, Or.inl ⟨rfl, rfl⟩⟩)))),
              Or.inr (Or.inr (Or.inr (Or.inr (Or.inr (Or.inl ⟨rfl, rfl⟩))))),
              Or.inr (Or.inr (Or.inr (Or.inr (Or.inr (Or.inr
                (Or.inl ⟨rfl, _, rfl, by decide⟩)))))),
              Or.inr (Or.inr (Or.inr (Or.inr (Or.inr (Or.inr (Or.inr
                (Or.inl ⟨rfl, _, rfl, by decide⟩))))))),
              Or.inr (Or.inr (Or.inr (Or.inr (Or.inr (Or.inr (Or.inr (Or.inr
                (Or.inl ⟨rfl, _, rfl, by decide⟩)))))))),
              Or.inr (Or.inr (Or.inr (Or.inr (Or.inr (Or.inr (Or.inr (Or.inr
                (Or.inr ⟨rfl, _, rfl,
                  List.Forall₂.cons ⟨_, rfl, by decide⟩ List.Forall₂.nil⟩)))))))),
              fun _ h => absurd h (List.not_mem_nil _)⟩,
          by decide⟩
        List.Forall₂.nil))

set_option maxRecDepth 100000 in
/-- C6, at a list response whose asset has `"is_deleted": true` and the payload
`{"a": 1}` under `json_data`: the decoded record has `IsDeleted = false` and a nil
`JSONData`.  The tags of the two fields are empty, so they are decoded from the keys
`IsDeleted` and `JSONData`, which `is_deleted` and `json_data` do not match. -/
theorem handleGetAssetsResponse_drops_is_deleted_and_json_data :
    json.parse deletedAssetBody
      = some (json.Value.array [json.Value.object
          [("id", json.Value.number "1"), ("name", json.Value.string "Asset 1" "Asset 1"),
           ("is_deleted", json.Value.bool true),
           ("last_updated", json.Value.string "1991-02-06T00:00:00.000000+00:00"
             "1991-02-06T00:00:00.000000+00:00"),
           ("note", json.Value.null),
           ("json_data", json.Value.object [("a", json.Value.number "1")]),
           ("type_id", json.Value.number "3"),
           ("primary_ip_device_id", json.Value.number "5"),
           ("site_id", json.Value.number "1"),
           ("tags", json.Value.array [json.Value.number "7"])]]) ∧
    handleGetAssetsResponse (New "u" "p" "h:8000" 5) deletedAssetBody
      = (.ok [{ ID := 1, Name := "Asset 1", IsDeleted := false,
                LastUpdated := ⟨1991, 2, 6, 0, 0, 0, 0, 0⟩, Note := "",
                JSONData := json.Value.null, TypeID := 3, PrimaryIPDeviceID := 5,
                SiteID := 1, Tags := [7] }], New "u" "p" "h:8000" 5) :=
  ⟨rfl, rfl⟩

/-! ## Methods other than GET and POST -/

/-- C7: for every method other than exactly `GET` and `POST`, and every connector, URL and
body, `buildRequest` returns the error made for an invalid method and no request. -/
theorem buildRequest_invalid_method (parseErr : String → Option Error) (self : IMSAPIConnector)
    (method request_url body : String) (hGet : method ≠ "GET") (hPost : method ≠ "POST") :
    buildRequest parseErr self method request_url body
      = (.error (Error.errorString ("method of %v was invalid" ++ method)), self) := by
  simp [buildRequest, http.MethodGet, http.MethodPost, hGet, hPost]

/-- The method `DELETE` is refused. -/
theorem buildRequest_invalid_method_witness :
    ("DELETE" ≠ "GET" ∧ "DELETE" ≠ "POST") ∧
    buildRequest acceptURL (New "u" "p" "h:8000" 5) "DELETE" "some url" "some body"
      = (.error (Error.errorString ("method of %v was invalid" ++ "DELETE")),
          New "u" "p" "h:8000" 5) :=
  ⟨by decide, buildRequest_invalid_method _ _ "DELETE" _ _ (by decide) (by decide)⟩

end ims_api_connector
